import Mathlib

/-!
# Rope tug game: simulation core of `src/main.js`

A shallow embedding of the per-rope simulation of `main.js`: the module-scope
variables `positions`, `leftPowers`, `rightPowers`, `running`, `roundTime`,
`timeLeft`, `lastTick`, `leftScore`, `rightScore` become the fields of `State`,
and the functions `buildRopes`, `tick`, `startRound`, `applyPull` and the click
handler of `#start-btn` become functions on `State`.

Modelling conventions.

* JavaScript numbers are modelled as exact rationals (`ℚ`): `0.5` is `1/2`,
  `0.45` is `45/100`. Rounding, infinities and NaN are outside the model.
* `Math.exp` is a library function that is no rational function; every
  definition that reaches it takes it as the parameter `exp : ℚ → ℚ`.
* DOM effects (`renderFlag`, `showToast`, `setButtonsEnabled`, the timer element,
  `requestAnimationFrame`/`cancelAnimationFrame` and the handle `raf`) do not
  feed back into the variables above and are left out. The idle jitter of the
  `setInterval` callback (lines 533-542, driven by `Math.random`) is not one of
  the operations modelled here.
* The three arrays are `List ℚ`; ropes are the indices `0 .. positions.length - 1`.
  Reads use `getD i 0`; on a well-formed state (`State.WF`, the three arrays of
  one length, as `buildRopes` creates them) the default is never used.
-/

namespace TugOfWar

/-- The `side` argument of `applyPull`: the strings `'left'` and `'right'`. -/
inductive Side where
  | left
  | right
deriving DecidableEq, Repr

/-- The module-scope variables of `main.js` that the simulation reads and writes. -/
structure State where
  positions : List ℚ
  leftPowers : List ℚ
  rightPowers : List ℚ
  running : Bool
  roundTime : ℚ
  timeLeft : ℚ
  lastTick : ℚ
  leftScore : Nat
  rightScore : Nat
deriving DecidableEq, Repr

/-- The three per-rope arrays have one length (one entry per rope). -/
def State.WF (s : State) : Prop :=
  s.leftPowers.length = s.positions.length ∧ s.rightPowers.length = s.positions.length

instance (s : State) : Decidable s.WF := by
  unfold State.WF; infer_instance

/-- The variables as the top of `main.js` initialises them (lines 25-35). -/
def initial : State :=
  { positions := [], leftPowers := [], rightPowers := [], running := false,
    roundTime := 30, timeLeft := 0, lastTick := 0, leftScore := 0, rightScore := 0 }

/-- The state part of `buildRopes(values)` (lines 93-95), `count` being
`flagEls.length`, one flag per entry of `values`. -/
def buildRopes (count : Nat) (s : State) : State :=
  { s with
    positions := List.replicate count (1 / 2)
    leftPowers := List.replicate count 0
    rightPowers := List.replicate count 0 }

/-- One iteration of the `for` loop of `tick` (lines 232-250) at rope `i`. -/
def tickRope (exp : ℚ → ℚ) (dt : ℚ) (s : State) (i : Nat) : State :=
  let net := s.rightPowers.getD i 0 - s.leftPowers.getD i 0
  let move := net * (dt / 1000) * (45 / 100)
  let p := s.positions.getD i 0 + move
  let l := s.leftPowers.getD i 0 * exp (-dt / 200)
  let r := s.rightPowers.getD i 0 * exp (-dt / 200)
  if p ≤ 0 then
    { s with
      positions := s.positions.set i 0
      leftPowers := s.leftPowers.set i 0
      rightPowers := s.rightPowers.set i r }
  else if p ≥ 1 then
    { s with
      positions := s.positions.set i 1
      leftPowers := s.leftPowers.set i l
      rightPowers := s.rightPowers.set i 0 }
  else
    { s with
      positions := s.positions.set i p
      leftPowers := s.leftPowers.set i l
      rightPowers := s.rightPowers.set i r }

/-- The whole `for (let i = 0; i < positions.length; i++)` loop of `tick`. -/
def advance (exp : ℚ → ℚ) (dt : ℚ) (s : State) : State :=
  (List.range s.positions.length).foldl (tickRope exp dt) s

/-- The `dt` of `tick(ts)` (lines 226-227): `lastTick` is replaced by `ts` when it
is falsy (zero), then `dt = Math.min(48, ts - lastTick)`. -/
def tickDt (ts : ℚ) (s : State) : ℚ :=
  min 48 (ts - (if s.lastTick = 0 then ts else s.lastTick))

/-- The callback of `positions.forEach` at line 265, on the pair
`(leftCount, rightCount)`. -/
def countStep (c : Nat × Nat) (p : ℚ) : Nat × Nat :=
  if p < 1 / 2 then (c.1 + 1, c.2) else if p > 1 / 2 then (c.1, c.2 + 1) else c

/-- The pair `(leftCount, rightCount)` after line 265. -/
def countSides (positions : List ℚ) : Nat × Nat :=
  positions.foldl countStep (0, 0)

/-- The body of `if (timeLeft <= 0)` in `tick` (lines 257-291): the round stops,
the winner's score is incremented, the powers are cleared, the timer is zeroed. -/
def roundEnd (s : State) : State :=
  let c := countSides s.positions
  { s with
    running := false
    leftScore := if c.1 > c.2 then s.leftScore + 1 else s.leftScore
    rightScore := if c.1 > c.2 then s.rightScore
                  else if c.2 > c.1 then s.rightScore + 1 else s.rightScore
    leftPowers := s.leftPowers.map (fun _ => 0)
    rightPowers := s.rightPowers.map (fun _ => 0)
    timeLeft := 0 }

/-- Lines 231-255 of `tick(ts)` on a running round: the loop over the ropes, then
`timeLeft -= dt / 1000`; `lastTick` already holds `ts`. -/
def tickBody (exp : ℚ → ℚ) (ts : ℚ) (s : State) : State :=
  let dt := tickDt ts s
  let s2 := advance exp dt { s with lastTick := ts }
  { s2 with timeLeft := s2.timeLeft - dt / 1000 }

/-- The function `tick(ts)` (lines 225-301). -/
def tick (exp : ℚ → ℚ) (ts : ℚ) (s : State) : State :=
  if !s.running then { s with lastTick := ts }
  else
    let s3 := tickBody exp ts s
    if s3.timeLeft ≤ 0 then roundEnd s3 else s3

/-- The function `startRound()` (lines 328-347); `durationValue` is
`Number(durationSelect.value)`, and `|| 30` replaces a zero by 30. -/
def startRound (durationValue : ℚ) (s : State) : State :=
  if s.running then s
  else
    let roundTime := if durationValue = 0 then 30 else durationValue
    { s with
      roundTime := roundTime
      timeLeft := roundTime
      lastTick := 0
      running := true
      positions := s.positions.map (fun _ => 1 / 2)
      leftPowers := s.leftPowers.map (fun _ => 0)
      rightPowers := s.rightPowers.map (fun _ => 0) }

/-- The helper `securedCount(s)` inside `applyPull` (lines 356-360). -/
def securedCount (positions : List ℚ) (s : Side) : Nat :=
  match s with
  | .left => (positions.filter (fun p => p = 0)).length
  | .right => (positions.filter (fun p => p = 1)).length

/-- The helper `isSecured(i, s)` inside `applyPull` (lines 362-365); an index
outside the array reads `undefined`, which is not `=== 0`. -/
def isSecured (positions : List ℚ) (i : Nat) (s : Side) : Bool :=
  match s with
  | .left => positions[i]? = some 0
  | .right => positions[i]? = some 1

/-- The statement pair `if (side === 'left') leftPowers[i] += force; else
rightPowers[i] += force;`. For `i` outside the array JavaScript stores a NaN in
a new slot beyond the ropes, which no loop over `positions.length` reads; the
model leaves the list as it is there. -/
def addPower (side : Side) (force : ℚ) (i : Nat) (s : State) : State :=
  match side with
  | .left => { s with leftPowers := s.leftPowers.set i (s.leftPowers.getD i 0 + force) }
  | .right => { s with rightPowers := s.rightPowers.set i (s.rightPowers.getD i 0 + force) }

/-- One iteration of the loop of the global branch of `applyPull` (lines 385-399). -/
def globalStep (side : Side) (force : ℚ) (currentSecured : Nat) (s : State) (i : Nat) : State :=
  if isSecured s.positions i side then addPower side force i s
  else if currentSecured ≥ 3 then s
  else addPower side force i s

/-- The function `applyPull(side, force, idx)` (lines 354-400); `idx = none` is
`null`, the global pull. -/
def applyPull (side : Side) (force : ℚ) (idx : Option Nat) (s : State) : State :=
  match idx with
  | some i =>
    if !isSecured s.positions i side && decide (securedCount s.positions side ≥ 3) then s
    else addPower side force i s
  | none =>
    let currentSecured := securedCount s.positions side
    (List.range s.positions.length).foldl (globalStep side force currentSecured) s

/-- The body shared by the click handlers of the pull buttons (lines 409-410 and
444-445) and by the `KeyA`/`KeyL` branches of the keydown handler (lines
473-474): `applyPull(side, force, target); if (!running) startRound();`. -/
def pullClick (side : Side) (force : ℚ) (idx : Option Nat) (durationValue : ℚ) (s : State) :
    State :=
  let s1 := applyPull side force idx s
  if !s1.running then startRound durationValue s1 else s1

/-- The click handler of `#start-btn` (lines 480-494): reset while a round runs,
start a round otherwise. -/
def startBtnClick (durationValue : ℚ) (s : State) : State :=
  if s.running then
    { s with
      running := false
      leftScore := 0
      rightScore := 0
      positions := s.positions.map (fun _ => 1 / 2)
      leftPowers := s.leftPowers.map (fun _ => 0)
      rightPowers := s.rightPowers.map (fun _ => 0) }
  else startRound durationValue s

/-- The triple `(positions[i], leftPowers[i], rightPowers[i])` of rope `i`. -/
def ropeAt (s : State) (i : Nat) : ℚ × ℚ × ℚ :=
  (s.positions.getD i 0, s.leftPowers.getD i 0, s.rightPowers.getD i 0)

/-- Store a triple as rope `i`. -/
def setRope (s : State) (i : Nat) (t : ℚ × ℚ × ℚ) : State :=
  { s with
    positions := s.positions.set i t.1
    leftPowers := s.leftPowers.set i t.2.1
    rightPowers := s.rightPowers.set i t.2.2 }

/-- A loop over the ropes `0 .. n - 1` that rewrites rope `i` from its own triple. -/
def foldRopes (g : ℚ × ℚ × ℚ → ℚ × ℚ × ℚ) (n : Nat) (s : State) : State :=
  (List.range n).foldl (fun s i => setRope s i (g (ropeAt s i))) s

/-- What one iteration of the loop of `tick` does to a rope's triple. -/
def ropeStep (exp : ℚ → ℚ) (dt : ℚ) (t : ℚ × ℚ × ℚ) : ℚ × ℚ × ℚ :=
  let p := t.1 + (t.2.2 - t.2.1) * (dt / 1000) * (45 / 100)
  if p ≤ 0 then (0, 0, t.2.2 * exp (-dt / 200))
  else if p ≥ 1 then (1, t.2.1 * exp (-dt / 200), 0)
  else (p, t.2.1 * exp (-dt / 200), t.2.2 * exp (-dt / 200))

/-- The gate of `applyPull` on one rope: the rope is at the side's edge, or the
side has fewer than three ropes at its edge. -/
def gateOpen (side : Side) (secured : Nat) (p : ℚ) : Bool :=
  (match side with
    | .left => decide (p = 0)
    | .right => decide (p = 1)) || decide (secured < 3)

/-- What an accepted or rejected pull does to a rope's triple. -/
def pullStep (side : Side) (force : ℚ) (secured : Nat) (t : ℚ × ℚ × ℚ) : ℚ × ℚ × ℚ :=
  if gateOpen side secured t.1 then
    match side with
    | .left => (t.1, t.2.1 + force, t.2.2)
    | .right => (t.1, t.2.1, t.2.2 + force)
  else t

/-- Two states that differ at most in the values (not the lengths) of the power arrays. -/
def PowersOnly (s t : State) : Prop :=
  t.positions = s.positions ∧ t.leftPowers.length = s.leftPowers.length ∧
  t.rightPowers.length = s.rightPowers.length ∧ t.running = s.running ∧
  t.roundTime = s.roundTime ∧ t.timeLeft = s.timeLeft ∧ t.lastTick = s.lastTick ∧
  t.leftScore = s.leftScore ∧ t.rightScore = s.rightScore

/-- Every power of every rope is nonnegative. -/
def PowersNonneg (s : State) : Prop :=
  (∀ x ∈ s.leftPowers, 0 ≤ x) ∧ (∀ x ∈ s.rightPowers, 0 ≤ x)

/-- The states the game reaches from `buildRopes(count)` through `startRound`,
`applyPull` with a force allowed by `okForce`, `tick` and the start/reset
button. -/
inductive Reachable (exp : ℚ → ℚ) (okForce : ℚ → Prop) (count : Nat) : State → Prop where
  | build : Reachable exp okForce count (buildRopes count initial)
  | start (d : ℚ) {s : State} :
      Reachable exp okForce count s → Reachable exp okForce count (startRound d s)
  | pull (side : Side) (force : ℚ) (idx : Option Nat) {s : State} :
      okForce force → Reachable exp okForce count s →
      Reachable exp okForce count (applyPull side force idx s)
  | frame (ts : ℚ) {s : State} :
      Reachable exp okForce count s → Reachable exp okForce count (tick exp ts s)
  | click (d : ℚ) {s : State} :
      Reachable exp okForce count s → Reachable exp okForce count (startBtnClick d s)

/-- The edge of a side: position 0 for the left, position 1 for the right. -/
def Side.edge : Side → ℚ
  | .left => 0
  | .right => 1

/-- The power array `applyPull(side, ...)` writes to. -/
def powers (side : Side) (s : State) : List ℚ :=
  match side with
  | .left => s.leftPowers
  | .right => s.rightPowers

/-- The power array of the opposite side. -/
def otherPowers (side : Side) (s : State) : List ℚ :=
  match side with
  | .left => s.rightPowers
  | .right => s.leftPowers

/-! ## Sample inputs -/

/-- A rational stand-in for `Math.exp`, used only to instantiate theorems: it is
nonnegative everywhere and at most 1 on nonpositive arguments. -/
def expSample (x : ℚ) : ℚ := if x ≤ 0 then 1 / (1 - x) else 1 + x

/-- A running round of four ropes, 48 ms after the previous frame at `ts = 1048`. -/
def sampleRunning : State :=
  { positions := [1 / 2, 0, 1, 1 / 2], leftPowers := [30, 0, 0, 1], rightPowers := [0, 0, 5, 0],
    running := true, roundTime := 30, timeLeft := 30, lastTick := 1000,
    leftScore := 0, rightScore := 0 }

/-- Scenario C: a running round of five ropes, three left of the middle and two
right of it, with 40 ms left on the clock. -/
def sampleExpiring : State :=
  { positions := [1 / 5, 3 / 10, 2 / 5, 3 / 5, 7 / 10], leftPowers := [0, 0, 0, 0, 0],
    rightPowers := [0, 0, 0, 0, 0], running := true, roundTime := 1, timeLeft := 1 / 25,
    lastTick := 1000, leftScore := 0, rightScore := 0 }

/-- A running 30-second round in which nobody has scored yet. -/
def runningRound (ps ls rs : List ℚ) (timeLeft lastTick : ℚ) : State :=
  { positions := ps, leftPowers := ls, rightPowers := rs, running := true, roundTime := 30,
    timeLeft := timeLeft, lastTick := lastTick, leftScore := 0, rightScore := 0 }

/-- A running round of five ropes: the left side holds ropes 0, 1, 2 at position 0,
rope 3 is in the middle, the right side holds rope 4 at position 1. -/
def sampleContested : State :=
  { positions := [0, 0, 0, 1 / 2, 1], leftPowers := [0, 0, 0, 0, 0],
    rightPowers := [0, 0, 0, 0, 0], running := true, roundTime := 30, timeLeft := 3744 / 125,
    lastTick := 1048, leftScore := 0, rightScore := 0 }

/-- How `sampleContested` comes about: a round of five ropes, a first frame, strong
left pulls on ropes 0, 1, 2 and a strong right pull on rope 4, then a frame 48 ms
later. -/
def contestedRun (exp : ℚ → ℚ) : State :=
  tick exp 1048
    (applyPull .right 100 (some 4)
      (applyPull .left 100 (some 2)
        (applyPull .left 100 (some 1)
          (applyPull .left 100 (some 0)
            (tick exp 1000 (startRound 30 (buildRopes 5 initial)))))))

/-- The state after `n` successive frames 48 ms apart, the first at `ts`. -/
def frames (exp : ℚ → ℚ) : Nat → ℚ → State → State
  | 0, _, s => s
  | n + 1, ts, s => frames exp n (ts + 48) (tick exp ts s)

/-- A running round of one rope that rests at position 0 with no power on it. -/
def parked (timeLeft lastTick : ℚ) : State :=
  runningRound [0] [0] [0] timeLeft lastTick

/-- A whole 30-second round of one rope: a first frame, one strong left pull, then
626 frames 48 ms apart. In exact arithmetic the 625th of them brings the clock
to zero; the 626th makes the run end the round also when the 625 subtractions
of `dt / 1000` leave a tiny positive remainder on the clock. -/
def scoredRun (exp : ℚ → ℚ) : State :=
  frames exp 626 1048
    (applyPull .left 100 (some 0) (tick exp 1000 (startRound 30 (buildRopes 1 initial))))

/-- A round of five ropes: a first frame, one strong global left pull, one frame
48 ms later. -/
def overSecuredRun (exp : ℚ → ℚ) : State :=
  tick exp 1048 (applyPull .left 100 none (tick exp 1000 (startRound 30 (buildRopes 5 initial))))

/-- A round of two ropes right after its first global left pull of force 1. -/
def pulledRun : State :=
  applyPull .left 1 none (startRound 30 (buildRopes 2 initial))

/-- A finished round of three ropes: nothing is running, the ropes rest where the
round left them and the left side has one win. -/
def sampleEnded : State :=
  { positions := [0, 1 / 5, 1], leftPowers := [0, 0, 0], rightPowers := [0, 0, 0],
    running := false, roundTime := 30, timeLeft := 0, lastTick := 31048,
    leftScore := 1, rightScore := 0 }

/-! ## The per-rope loops -/

theorem getD_set_self (l : List ℚ) (i : Nat) : l.set i (l.getD i 0) = l := by
  apply List.ext_getElem?
  intro j
  by_cases h : i = j
  · subst h
    by_cases hi : i < l.length
    · simp [List.getElem?_set, hi, List.getD_eq_getElem?_getD]
    · have hi2 : l.length ≤ i := Nat.le_of_not_lt hi
      rw [List.set_eq_of_length_le hi2]
  · simp [List.getElem?_set, h]

theorem getElemD_set_self (l : List ℚ) (i : Nat) : l.set i (l[i]?.getD 0) = l := by
  rw [← List.getD_eq_getElem?_getD]
  exact getD_set_self l i

theorem getD_set (l : List ℚ) (i j : Nat) (v : ℚ) (hi : i < l.length) :
    (l.set i v).getD j 0 = if j = i then v else l.getD j 0 := by
  by_cases h : j = i
  · subst h
    simp [List.getD_eq_getElem?_getD, List.getElem?_set, hi]
  · have h2 : ¬ i = j := fun e => h e.symm
    simp [List.getD_eq_getElem?_getD, List.getElem?_set, h, h2]

theorem ropeAt_setRope (s : State) (i j : Nat) (t : ℚ × ℚ × ℚ) (hw : s.WF)
    (hi : i < s.positions.length) :
    ropeAt (setRope s i t) j = if j = i then t else ropeAt s j := by
  obtain ⟨hl, hr⟩ := hw
  have hil : i < s.leftPowers.length := by omega
  have hir : i < s.rightPowers.length := by omega
  simp only [ropeAt, setRope, getD_set _ _ _ _ hi, getD_set _ _ _ _ hil, getD_set _ _ _ _ hir]
  split_ifs <;> rfl

theorem setRope_WF (s : State) (i : Nat) (t : ℚ × ℚ × ℚ) (hw : s.WF) : (setRope s i t).WF := by
  simpa [State.WF, setRope] using hw

theorem setRope_frame (s : State) (i : Nat) (t : ℚ × ℚ × ℚ) :
    (setRope s i t).positions.length = s.positions.length ∧
    (setRope s i t).running = s.running ∧ (setRope s i t).roundTime = s.roundTime ∧
    (setRope s i t).timeLeft = s.timeLeft ∧ (setRope s i t).lastTick = s.lastTick ∧
    (setRope s i t).leftScore = s.leftScore ∧ (setRope s i t).rightScore = s.rightScore := by
  simp [setRope]

theorem foldRopes_succ (g : ℚ × ℚ × ℚ → ℚ × ℚ × ℚ) (n : Nat) (s : State) :
    foldRopes g (n + 1) s = setRope (foldRopes g n s) n (g (ropeAt (foldRopes g n s) n)) := by
  simp [foldRopes, List.range_succ, List.foldl_append]

/-- The loop keeps the arrays' lengths and every scalar variable, and rewrites
exactly the ropes below `n`, each from its own triple before the loop. -/
theorem foldRopes_spec (g : ℚ × ℚ × ℚ → ℚ × ℚ × ℚ) (s : State) (hw : s.WF) :
    ∀ n, n ≤ s.positions.length →
      (foldRopes g n s).WF ∧
      (foldRopes g n s).positions.length = s.positions.length ∧
      (foldRopes g n s).running = s.running ∧ (foldRopes g n s).roundTime = s.roundTime ∧
      (foldRopes g n s).timeLeft = s.timeLeft ∧ (foldRopes g n s).lastTick = s.lastTick ∧
      (foldRopes g n s).leftScore = s.leftScore ∧ (foldRopes g n s).rightScore = s.rightScore ∧
      ∀ j, ropeAt (foldRopes g n s) j = if j < n then g (ropeAt s j) else ropeAt s j := by
  intro n
  induction n with
  | zero =>
    intro _
    simp [foldRopes, hw]
  | succ n ih =>
    intro hn
    obtain ⟨h1, h2, h3, h4, h5, h6, h7, h8, h9⟩ := ih (Nat.le_of_succ_le hn)
    rw [foldRopes_succ]
    have hf := setRope_frame (foldRopes g n s) n (g (ropeAt (foldRopes g n s) n))
    obtain ⟨f1, f2, f3, f4, f5, f6, f7⟩ := hf
    refine ⟨setRope_WF _ _ _ h1, by omega, by rw [f2, h3], by rw [f3, h4], by rw [f4, h5],
      by rw [f5, h6], by rw [f6, h7], by rw [f7, h8], ?_⟩
    intro j
    rw [ropeAt_setRope _ _ _ _ h1 (by omega), h9 n, h9 j]
    by_cases e : j = n
    · subst e
      simp
    · by_cases l : j < n
      · have l2 : j < n + 1 := by omega
        simp [e, l, l2]
      · have l2 : ¬ j < n + 1 := by omega
        simp [e, l, l2]

theorem tickRope_eq (exp : ℚ → ℚ) (dt : ℚ) (s : State) (i : Nat) :
    tickRope exp dt s i = setRope s i (ropeStep exp dt (ropeAt s i)) := by
  simp only [tickRope, setRope, ropeStep, ropeAt]
  split_ifs <;> rfl

theorem advance_eq (exp : ℚ → ℚ) (dt : ℚ) (s : State) :
    advance exp dt s = foldRopes (ropeStep exp dt) s.positions.length s := by
  unfold advance foldRopes
  congr 1
  funext s i
  exact tickRope_eq exp dt s i

theorem isSecured_eq (positions : List ℚ) (i : Nat) (side : Side) (hi : i < positions.length) :
    isSecured positions i side =
      (match side with
        | .left => decide (positions.getD i 0 = 0)
        | .right => decide (positions.getD i 0 = 1)) := by
  cases side <;> simp [isSecured, List.getD_eq_getElem?_getD, List.getElem?_eq_getElem hi]

theorem addPower_eq (side : Side) (force : ℚ) (i : Nat) (s : State) :
    addPower side force i s =
      setRope s i (match side with
        | .left => ((ropeAt s i).1, (ropeAt s i).2.1 + force, (ropeAt s i).2.2)
        | .right => ((ropeAt s i).1, (ropeAt s i).2.1, (ropeAt s i).2.2 + force)) := by
  cases side <;> simp [addPower, setRope, ropeAt, getElemD_set_self]

theorem setRope_self (s : State) (i : Nat) : setRope s i (ropeAt s i) = s := by
  simp [setRope, ropeAt, getElemD_set_self]

theorem globalStep_eq (side : Side) (force : ℚ) (c : Nat) (s : State) (i : Nat)
    (hi : i < s.positions.length) :
    globalStep side force c s i = setRope s i (pullStep side force c (ropeAt s i)) := by
  unfold globalStep pullStep gateOpen
  rw [isSecured_eq _ _ _ hi, addPower_eq]
  cases side
  · by_cases h1 : s.positions[i]?.getD 0 = 0
    · simp [ropeAt, h1]
    · by_cases h3 : c < 3
      · have h4 : ¬ c ≥ 3 := by omega
        simp [ropeAt, h1, h3, h4]
      · have h4 : c ≥ 3 := by omega
        have e := setRope_self s i
        simp only [ropeAt, List.getD_eq_getElem?_getD] at e
        simp [ropeAt, h1, h3, h4, e]
  · by_cases h1 : s.positions[i]?.getD 0 = 1
    · simp [ropeAt, h1]
    · by_cases h3 : c < 3
      · have h4 : ¬ c ≥ 3 := by omega
        simp [ropeAt, h1, h3, h4]
      · have h4 : c ≥ 3 := by omega
        have e := setRope_self s i
        simp only [ropeAt, List.getD_eq_getElem?_getD] at e
        simp [ropeAt, h1, h3, h4, e]

theorem advance_spec (exp : ℚ → ℚ) (dt : ℚ) (s : State) (hw : s.WF) :
    (advance exp dt s).WF ∧
    (advance exp dt s).positions.length = s.positions.length ∧
    (advance exp dt s).running = s.running ∧ (advance exp dt s).roundTime = s.roundTime ∧
    (advance exp dt s).timeLeft = s.timeLeft ∧ (advance exp dt s).lastTick = s.lastTick ∧
    (advance exp dt s).leftScore = s.leftScore ∧ (advance exp dt s).rightScore = s.rightScore ∧
    ∀ j, j < s.positions.length →
      ropeAt (advance exp dt s) j = ropeStep exp dt (ropeAt s j) := by
  rw [advance_eq]
  obtain ⟨h1, h2, h3, h4, h5, h6, h7, h8, h9⟩ :=
    foldRopes_spec (ropeStep exp dt) s hw s.positions.length (Nat.le_refl _)
  refine ⟨h1, h2, h3, h4, h5, h6, h7, h8, ?_⟩
  intro j hj
  rw [h9 j, if_pos hj]

theorem mem_getD (l : List ℚ) (x : ℚ) (h : x ∈ l) : ∃ i, i < l.length ∧ l.getD i 0 = x := by
  obtain ⟨i, hi, e⟩ := List.getElem_of_mem h
  exact ⟨i, hi, by simp [List.getD_eq_getElem?_getD, List.getElem?_eq_getElem hi, e]⟩

theorem getD_mem (l : List ℚ) (i : Nat) (h : i < l.length) : l.getD i 0 ∈ l := by
  simp [List.getD_eq_getElem?_getD, List.getElem?_eq_getElem h]

theorem getElem?_of_getD (l : List ℚ) (i : Nat) (h : i < l.length) :
    l[i]? = some (l.getD i 0) := by
  simp [List.getD_eq_getElem?_getD, List.getElem?_eq_getElem h]

theorem getElem?_map_zero (l : List ℚ) (i : Nat) (h : i < l.length) :
    (l.map (fun _ => (0 : ℚ)))[i]? = some 0 := by
  rw [List.getElem?_map, List.getElem?_eq_getElem h]
  rfl

theorem ropeStep_position (exp : ℚ → ℚ) (dt : ℚ) (t : ℚ × ℚ × ℚ) :
    0 ≤ (ropeStep exp dt t).1 ∧ (ropeStep exp dt t).1 ≤ 1 := by
  unfold ropeStep
  simp only
  split_ifs with h1 h2
  · simp
  · simp
  · simp only
    constructor
    · exact le_of_lt (not_le.mp h1)
    · exact le_of_lt (not_le.mp h2)

theorem ropeStep_edge (exp : ℚ → ℚ) (dt : ℚ) (t : ℚ × ℚ × ℚ) :
    ((ropeStep exp dt t).1 = 0 → (ropeStep exp dt t).2.1 = 0) ∧
    ((ropeStep exp dt t).1 = 1 → (ropeStep exp dt t).2.2 = 0) := by
  unfold ropeStep
  simp only
  split_ifs with h1 h2
  · simp
  · simp
  · simp only
    constructor
    · intro e
      exact absurd (le_of_eq e) h1
    · intro e
      exact absurd (ge_of_eq e) h2

/-! ## The frame function -/

theorem roundEnd_positions (s : State) : (roundEnd s).positions = s.positions := rfl

theorem tick_idle (exp : ℚ → ℚ) (ts : ℚ) (s : State) (hr : s.running = false) :
    tick exp ts s = { s with lastTick := ts } := by
  simp [tick, hr]

theorem tick_running (exp : ℚ → ℚ) (ts : ℚ) (s : State) (hr : s.running = true) :
    tick exp ts s =
      if (tickBody exp ts s).timeLeft ≤ 0 then roundEnd (tickBody exp ts s)
      else tickBody exp ts s := by
  simp [tick, hr]

theorem tickBody_spec (exp : ℚ → ℚ) (ts : ℚ) (s : State) (hw : s.WF) :
    (tickBody exp ts s).WF ∧
    (tickBody exp ts s).positions.length = s.positions.length ∧
    (tickBody exp ts s).running = s.running ∧
    (tickBody exp ts s).timeLeft = s.timeLeft - tickDt ts s / 1000 ∧
    (tickBody exp ts s).leftScore = s.leftScore ∧ (tickBody exp ts s).rightScore = s.rightScore ∧
    ∀ j, j < s.positions.length →
      ropeAt (tickBody exp ts s) j = ropeStep exp (tickDt ts s) (ropeAt s j) := by
  have hw1 : State.WF { s with lastTick := ts } := hw
  obtain ⟨h1, h2, h3, -, h5, -, h7, h8, h9⟩ := advance_spec exp (tickDt ts s) _ hw1
  refine ⟨h1, h2, h3, ?_, h7, h8, h9⟩
  simp only [tickBody]
  rw [h5]

theorem tick_positions (exp : ℚ → ℚ) (ts : ℚ) (s : State) (hr : s.running = true) :
    (tick exp ts s).positions = (tickBody exp ts s).positions := by
  rw [tick_running exp ts s hr]
  split_ifs <;> rfl

theorem tick_WF (exp : ℚ → ℚ) (ts : ℚ) (s : State) (hw : s.WF) : (tick exp ts s).WF := by
  cases hr : s.running with
  | false =>
    rw [tick_idle exp ts s hr]
    exact hw
  | true =>
    obtain ⟨h1, -⟩ := tickBody_spec exp ts s hw
    rw [tick_running exp ts s hr]
    split_ifs
    · simpa [State.WF, roundEnd] using h1
    · exact h1

/-- After a frame of a running round every position lies in `[0, 1]`. -/
theorem tick_clamps (exp : ℚ → ℚ) (ts : ℚ) (s : State) (hw : s.WF) (hr : s.running = true) :
    ∀ p ∈ (tick exp ts s).positions, 0 ≤ p ∧ p ≤ 1 := by
  intro p hp
  rw [tick_positions exp ts s hr] at hp
  obtain ⟨-, h2, -, -, -, -, h9⟩ := tickBody_spec exp ts s hw
  obtain ⟨i, hi, e⟩ := mem_getD _ _ hp
  have h := h9 i (by rw [← h2]; exact hi)
  have hp1 : (ropeAt (tickBody exp ts s) i).1 = p := e
  rw [h] at hp1
  rw [← hp1]
  exact ropeStep_position exp (tickDt ts s) _

/-! ## Pulls -/

theorem PowersOnly.refl (s : State) : PowersOnly s s := by
  simp [PowersOnly]

theorem PowersOnly.trans {s t u : State} (h1 : PowersOnly s t) (h2 : PowersOnly t u) :
    PowersOnly s u := by
  obtain ⟨a1, a2, a3, a4, a5, a6, a7, a8, a9⟩ := h1
  obtain ⟨b1, b2, b3, b4, b5, b6, b7, b8, b9⟩ := h2
  exact ⟨b1.trans a1, b2.trans a2, b3.trans a3, b4.trans a4, b5.trans a5, b6.trans a6,
    b7.trans a7, b8.trans a8, b9.trans a9⟩

theorem PowersOnly.WF {s t : State} (h : PowersOnly s t) (hw : s.WF) : t.WF := by
  obtain ⟨a1, a2, a3, -⟩ := h
  obtain ⟨w1, w2⟩ := hw
  exact ⟨by rw [a2, a1, w1], by rw [a3, a1, w2]⟩

theorem addPower_powersOnly (side : Side) (force : ℚ) (i : Nat) (s : State) :
    PowersOnly s (addPower side force i s) := by
  cases side <;> simp [PowersOnly, addPower]

theorem globalStep_powersOnly (side : Side) (force : ℚ) (c : Nat) (s : State) (i : Nat) :
    PowersOnly s (globalStep side force c s i) := by
  unfold globalStep
  split_ifs
  · exact addPower_powersOnly side force i s
  · exact PowersOnly.refl s
  · exact addPower_powersOnly side force i s

theorem foldl_powersOnly (f : State → Nat → State) (hf : ∀ s i, PowersOnly s (f s i)) :
    ∀ (l : List Nat) (s : State), PowersOnly s (l.foldl f s) := by
  intro l
  induction l with
  | nil => intro s; exact PowersOnly.refl s
  | cons a l ih =>
    intro s
    exact PowersOnly.trans (hf s a) (ih (f s a))

theorem applyPull_some_eq (side : Side) (force : ℚ) (i : Nat) (s : State) :
    applyPull side force (some i) s =
      globalStep side force (securedCount s.positions side) s i := by
  unfold applyPull globalStep
  by_cases h1 : isSecured s.positions i side = true <;>
    by_cases h2 : securedCount s.positions side ≥ 3 <;> simp [h1, h2]

theorem applyPull_powersOnly (side : Side) (force : ℚ) (idx : Option Nat) (s : State) :
    PowersOnly s (applyPull side force idx s) := by
  cases idx with
  | some i =>
    rw [applyPull_some_eq]
    exact globalStep_powersOnly side force _ s i
  | none =>
    exact foldl_powersOnly _ (globalStep_powersOnly side force _) _ s

theorem globalFold_eq (side : Side) (force : ℚ) (c : Nat) (s : State) (hw : s.WF) :
    ∀ n, n ≤ s.positions.length →
      (List.range n).foldl (globalStep side force c) s = foldRopes (pullStep side force c) n s := by
  intro n
  induction n with
  | zero => intro _; simp [foldRopes]
  | succ n ih =>
    intro hn
    obtain ⟨-, h2, -⟩ := foldRopes_spec (pullStep side force c) s hw n (Nat.le_of_succ_le hn)
    rw [foldRopes_succ, List.range_succ, List.foldl_append, ih (Nat.le_of_succ_le hn)]
    simp only [List.foldl_cons, List.foldl_nil]
    exact globalStep_eq side force c _ n (by omega)

theorem applyPull_none_eq (side : Side) (force : ℚ) (s : State) (hw : s.WF) :
    applyPull side force none s =
      foldRopes (pullStep side force (securedCount s.positions side)) s.positions.length s :=
  globalFold_eq side force _ s hw _ (Nat.le_refl _)

/-- Every rope after a global pull, from its own triple before the pull. -/
theorem applyPull_none_ropeAt (side : Side) (force : ℚ) (s : State) (hw : s.WF) (j : Nat)
    (hj : j < s.positions.length) :
    ropeAt (applyPull side force none s) j =
      pullStep side force (securedCount s.positions side) (ropeAt s j) := by
  rw [applyPull_none_eq side force s hw]
  obtain ⟨-, -, -, -, -, -, -, -, h9⟩ :=
    foldRopes_spec (pullStep side force (securedCount s.positions side)) s hw _ (Nat.le_refl _)
  rw [h9 j, if_pos hj]

/-- Every rope after an indexed pull at an index in range. -/
theorem applyPull_some_ropeAt (side : Side) (force : ℚ) (i : Nat) (s : State) (hw : s.WF)
    (hi : i < s.positions.length) (j : Nat) :
    ropeAt (applyPull side force (some i) s) j =
      if j = i then pullStep side force (securedCount s.positions side) (ropeAt s i)
      else ropeAt s j := by
  rw [applyPull_some_eq, globalStep_eq side force _ s i hi, ropeAt_setRope s i j _ hw hi]

theorem securedCount_eq_count (positions : List ℚ) (side : Side) :
    securedCount positions side = positions.count side.edge := by
  cases side
  · simp only [securedCount, Side.edge, List.count, List.countP_eq_length_filter]
    congr 2
  · simp only [securedCount, Side.edge, List.count, List.countP_eq_length_filter]
    congr 2

theorem isSecured_iff (positions : List ℚ) (i : Nat) (side : Side) :
    isSecured positions i side = true ↔ positions[i]? = some side.edge := by
  cases side <;> simp [isSecured, Side.edge]

theorem addPower_out_of_range (side : Side) (force : ℚ) (i : Nat) (s : State) (hw : s.WF)
    (hi : s.positions.length ≤ i) : addPower side force i s = s := by
  obtain ⟨w1, w2⟩ := hw
  cases side
  · simp only [addPower]
    rw [List.set_eq_of_length_le (by omega)]
  · simp only [addPower]
    rw [List.set_eq_of_length_le (by omega)]

theorem addPower_spec (side : Side) (force : ℚ) (i : Nat) (s : State) (hw : s.WF)
    (hi : i < s.positions.length) :
    (powers side (addPower side force i s))[i]? = some ((powers side s).getD i 0 + force) ∧
    (∀ j, j ≠ i → (powers side (addPower side force i s))[j]? = (powers side s)[j]?) ∧
    otherPowers side (addPower side force i s) = otherPowers side s := by
  obtain ⟨w1, w2⟩ := hw
  cases side
  · refine ⟨?_, ?_, rfl⟩
    · simp only [powers, addPower]
      rw [List.getElem?_set_self (by omega)]
    · intro j hj
      simp only [powers, addPower]
      rw [List.getElem?_set_ne (fun e => hj e.symm)]
  · refine ⟨?_, ?_, rfl⟩
    · simp only [powers, addPower]
      rw [List.getElem?_set_self (by omega)]
    · intro j hj
      simp only [powers, addPower]
      rw [List.getElem?_set_ne (fun e => hj e.symm)]

/-- The gate of an indexed pull, in terms of positions: open exactly when the rope
is at the side's edge or fewer than three ropes are. -/
theorem applyPull_some_cases (side : Side) (force : ℚ) (i : Nat) (s : State) :
    ((s.positions[i]? = some side.edge ∨ s.positions.count side.edge < 3) →
      applyPull side force (some i) s = addPower side force i s) ∧
    (¬ (s.positions[i]? = some side.edge ∨ s.positions.count side.edge < 3) →
      applyPull side force (some i) s = s) := by
  rw [← isSecured_iff, ← securedCount_eq_count]
  unfold applyPull
  by_cases h1 : isSecured s.positions i side = true <;>
    by_cases h2 : securedCount s.positions side < 3
  · simp [h1, h2]
  · simp [h1, h2]
  · have h3 : ¬ 3 ≤ securedCount s.positions side := by omega
    simp [h1, h2, h3]
  · have h3 : 3 ≤ securedCount s.positions side := by omega
    simp [h1, h2, h3]

theorem indexedFold_eq (side : Side) (force : ℚ) (s : State) :
    ∀ (l : List Nat) (st : State), st.positions = s.positions →
      l.foldl (fun st i => applyPull side force (some i) st) st =
        l.foldl (globalStep side force (securedCount s.positions side)) st := by
  intro l
  induction l with
  | nil => intro st _; rfl
  | cons a l ih =>
    intro st hst
    simp only [List.foldl_cons]
    rw [applyPull_some_eq, hst]
    exact ih _ ((globalStep_powersOnly side force _ st a).1.trans hst)

theorem pullStep_spec (side : Side) (force : ℚ) (c : Nat) (t : ℚ × ℚ × ℚ) :
    (pullStep side force c t).1 = t.1 ∧
    (match side with
      | .left => (pullStep side force c t).2.1 =
          (if t.1 = side.edge ∨ c < 3 then t.2.1 + force else t.2.1) ∧
          (pullStep side force c t).2.2 = t.2.2
      | .right => (pullStep side force c t).2.2 =
          (if t.1 = side.edge ∨ c < 3 then t.2.2 + force else t.2.2) ∧
          (pullStep side force c t).2.1 = t.2.1) := by
  cases side
  · by_cases h1 : t.1 = 0 <;> by_cases h2 : c < 3 <;>
      simp [pullStep, gateOpen, Side.edge, h1, h2]
  · by_cases h1 : t.1 = 1 <;> by_cases h2 : c < 3 <;>
      simp [pullStep, gateOpen, Side.edge, h1, h2]

/-! ## Starting and resetting -/

theorem buildRopes_WF (count : Nat) (s : State) : (buildRopes count s).WF := by
  simp [State.WF, buildRopes]

theorem startRound_idle (d : ℚ) (s : State) (hr : s.running = false) :
    (startRound d s).positions = List.replicate s.positions.length (1 / 2) ∧
    (startRound d s).leftPowers = List.replicate s.leftPowers.length 0 ∧
    (startRound d s).rightPowers = List.replicate s.rightPowers.length 0 ∧
    (startRound d s).leftScore = s.leftScore ∧ (startRound d s).rightScore = s.rightScore ∧
    (startRound d s).running = true := by
  simp [startRound, hr, List.map_const']

theorem startRound_running (d : ℚ) (s : State) (hr : s.running = true) :
    startRound d s = s := by
  simp [startRound, hr]

theorem startBtnClick_running (d : ℚ) (s : State) (hr : s.running = true) :
    (startBtnClick d s).positions = List.replicate s.positions.length (1 / 2) ∧
    (startBtnClick d s).leftPowers = List.replicate s.leftPowers.length 0 ∧
    (startBtnClick d s).rightPowers = List.replicate s.rightPowers.length 0 ∧
    (startBtnClick d s).leftScore = 0 ∧ (startBtnClick d s).rightScore = 0 ∧
    (startBtnClick d s).running = false := by
  simp [startBtnClick, hr, List.map_const']

theorem startBtnClick_idle (d : ℚ) (s : State) (hr : s.running = false) :
    startBtnClick d s = startRound d s := by
  simp [startBtnClick, hr]

theorem startRound_WF (d : ℚ) (s : State) (hw : s.WF) : (startRound d s).WF := by
  cases hr : s.running with
  | true => rw [startRound_running d s hr]; exact hw
  | false =>
    obtain ⟨h1, h2, h3, -⟩ := startRound_idle d s hr
    obtain ⟨w1, w2⟩ := hw
    simp [State.WF, h1, h2, h3, w1, w2]

theorem startBtnClick_WF (d : ℚ) (s : State) (hw : s.WF) : (startBtnClick d s).WF := by
  cases hr : s.running with
  | true =>
    obtain ⟨h1, h2, h3, -⟩ := startBtnClick_running d s hr
    obtain ⟨w1, w2⟩ := hw
    simp [State.WF, h1, h2, h3, w1, w2]
  | false => rw [startBtnClick_idle d s hr]; exact startRound_WF d s hw

/-- Whatever the state, the start/reset button leaves every rope at the baseline. -/
theorem startBtnClick_baseline (d : ℚ) (s : State) :
    (startBtnClick d s).positions = List.replicate s.positions.length (1 / 2) ∧
    (startBtnClick d s).leftPowers = List.replicate s.leftPowers.length 0 ∧
    (startBtnClick d s).rightPowers = List.replicate s.rightPowers.length 0 := by
  cases hr : s.running with
  | true =>
    obtain ⟨h1, h2, h3, -⟩ := startBtnClick_running d s hr
    exact ⟨h1, h2, h3⟩
  | false =>
    rw [startBtnClick_idle d s hr]
    obtain ⟨h1, h2, h3, -⟩ := startRound_idle d s hr
    exact ⟨h1, h2, h3⟩

theorem reachable_WF (exp : ℚ → ℚ) (okForce : ℚ → Prop) (count : Nat) (s : State)
    (h : Reachable exp okForce count s) : s.WF := by
  induction h with
  | build => exact buildRopes_WF count initial
  | start d _ ih => exact startRound_WF d _ ih
  | pull side force idx _ _ ih => exact (applyPull_powersOnly side force idx _).WF ih
  | frame ts _ ih => exact tick_WF exp ts _ ih
  | click d _ ih => exact startBtnClick_WF d _ ih

theorem reachable_length (exp : ℚ → ℚ) (okForce : ℚ → Prop) (count : Nat) (s : State)
    (h : Reachable exp okForce count s) : s.positions.length = count := by
  induction h with
  | build => simp [buildRopes]
  | @start d s _ ih =>
    cases hr : s.running with
    | true => rw [startRound_running d s hr]; exact ih
    | false => rw [(startRound_idle d s hr).1]; simpa using ih
  | pull side force idx _ _ ih =>
    rw [(applyPull_powersOnly side force idx _).1]
    exact ih
  | @frame ts s hs ih =>
    cases hr : s.running with
    | false =>
      rw [tick_idle exp ts s hr]
      exact ih
    | true =>
      rw [tick_positions exp ts s hr,
        (tickBody_spec exp ts s (reachable_WF exp okForce count s hs)).2.1]
      exact ih
  | @click d s _ ih =>
    rw [(startBtnClick_baseline d s).1]
    simpa using ih

theorem mem_replicate_half (n : Nat) (p : ℚ) (hp : p ∈ List.replicate n (1 / 2 : ℚ)) :
    0 ≤ p ∧ p ≤ 1 := by
  rw [(List.mem_replicate.mp hp).2]
  norm_num

theorem reachable_positions (exp : ℚ → ℚ) (okForce : ℚ → Prop) (count : Nat) (s : State)
    (h : Reachable exp okForce count s) : ∀ p ∈ s.positions, 0 ≤ p ∧ p ≤ 1 := by
  induction h with
  | build =>
    intro p hp
    exact mem_replicate_half count p hp
  | @start d s _ ih =>
    intro p hp
    cases hr : s.running with
    | true =>
      rw [startRound_running d s hr] at hp
      exact ih p hp
    | false =>
      rw [(startRound_idle d s hr).1] at hp
      exact mem_replicate_half _ p hp
  | pull side force idx _ _ ih =>
    intro p hp
    rw [(applyPull_powersOnly side force idx _).1] at hp
    exact ih p hp
  | @frame ts s hs ih =>
    cases hr : s.running with
    | false =>
      rw [tick_idle exp ts s hr]
      exact ih
    | true => exact tick_clamps exp ts s (reachable_WF exp okForce count s hs) hr
  | @click d s _ ih =>
    intro p hp
    rw [(startBtnClick_baseline d s).1] at hp
    exact mem_replicate_half _ p hp

/-- Starting a round from two idle states that differ at most in the values of
their powers gives one and the same state. -/
theorem startRound_powersOnly (d : ℚ) (s t : State) (h : PowersOnly s t)
    (hr : s.running = false) : startRound d t = startRound d s := by
  obtain ⟨a1, a2, a3, a4, a5, a6, a7, a8, a9⟩ := h
  have hrt : t.running = false := by rw [a4, hr]
  simp only [startRound, hr, hrt, a1, a8, a9, List.map_const', a2, a3, Bool.false_eq_true,
    if_false]

/-! ## Nonnegative powers -/

theorem nonneg_getD (l : List ℚ) (h : ∀ x ∈ l, 0 ≤ x) (j : Nat) : 0 ≤ l.getD j 0 := by
  by_cases hj : j < l.length
  · exact h _ (getD_mem l j hj)
  · rw [List.getD_eq_default _ _ (Nat.le_of_not_lt hj)]

theorem ropeAt_nonneg (s : State) (h : PowersNonneg s) (j : Nat) :
    0 ≤ (ropeAt s j).2.1 ∧ 0 ≤ (ropeAt s j).2.2 :=
  ⟨nonneg_getD _ h.1 j, nonneg_getD _ h.2 j⟩

theorem powersNonneg_of_ropeAt (s : State) (hw : s.WF)
    (h : ∀ j, j < s.positions.length → 0 ≤ (ropeAt s j).2.1 ∧ 0 ≤ (ropeAt s j).2.2) :
    PowersNonneg s := by
  obtain ⟨w1, w2⟩ := hw
  constructor
  · intro x hx
    obtain ⟨j, hj, e⟩ := mem_getD _ _ hx
    rw [← e]
    exact (h j (by omega)).1
  · intro x hx
    obtain ⟨j, hj, e⟩ := mem_getD _ _ hx
    rw [← e]
    exact (h j (by omega)).2

theorem powersNonneg_replicate (s : State) (n m : Nat)
    (hl : s.leftPowers = List.replicate n 0) (hr : s.rightPowers = List.replicate m 0) :
    PowersNonneg s := by
  constructor
  · intro x hx
    rw [hl] at hx
    rw [(List.mem_replicate.mp hx).2]
  · intro x hx
    rw [hr] at hx
    rw [(List.mem_replicate.mp hx).2]

theorem ropeStep_nonneg (exp : ℚ → ℚ) (h0 : ∀ x, 0 ≤ exp x) (dt : ℚ) (t : ℚ × ℚ × ℚ)
    (hl : 0 ≤ t.2.1) (hr : 0 ≤ t.2.2) :
    0 ≤ (ropeStep exp dt t).2.1 ∧ 0 ≤ (ropeStep exp dt t).2.2 := by
  unfold ropeStep
  simp only
  split_ifs
  · exact ⟨le_refl 0, mul_nonneg hr (h0 _)⟩
  · exact ⟨mul_nonneg hl (h0 _), le_refl 0⟩
  · exact ⟨mul_nonneg hl (h0 _), mul_nonneg hr (h0 _)⟩

theorem ropeStep_le (exp : ℚ → ℚ) (h1 : ∀ x, x ≤ 0 → exp x ≤ 1) (dt : ℚ) (hdt : 0 ≤ dt)
    (t : ℚ × ℚ × ℚ) (hl : 0 ≤ t.2.1) (hr : 0 ≤ t.2.2) :
    (ropeStep exp dt t).2.1 ≤ t.2.1 ∧ (ropeStep exp dt t).2.2 ≤ t.2.2 := by
  have he : exp (-dt / 200) ≤ 1 := h1 _ (by linarith)
  have el : t.2.1 * exp (-dt / 200) ≤ t.2.1 := mul_le_of_le_one_right hl he
  have er : t.2.2 * exp (-dt / 200) ≤ t.2.2 := mul_le_of_le_one_right hr he
  unfold ropeStep
  simp only
  split_ifs
  · exact ⟨hl, er⟩
  · exact ⟨el, hr⟩
  · exact ⟨el, er⟩

theorem pullStep_nonneg (side : Side) (force : ℚ) (hf : 0 < force) (c : Nat) (t : ℚ × ℚ × ℚ)
    (hl : 0 ≤ t.2.1) (hr : 0 ≤ t.2.2) :
    0 ≤ (pullStep side force c t).2.1 ∧ 0 ≤ (pullStep side force c t).2.2 := by
  unfold pullStep
  split_ifs
  · cases side
    · exact ⟨by simp only; linarith, hr⟩
    · exact ⟨hl, by simp only; linarith⟩
  · exact ⟨hl, hr⟩

theorem applyPull_out_of_range (side : Side) (force : ℚ) (i : Nat) (s : State) (hw : s.WF)
    (hi : s.positions.length ≤ i) : applyPull side force (some i) s = s := by
  by_cases hg : s.positions[i]? = some side.edge ∨ s.positions.count side.edge < 3
  · rw [(applyPull_some_cases side force i s).1 hg]
    exact addPower_out_of_range side force i s hw hi
  · exact (applyPull_some_cases side force i s).2 hg

theorem applyPull_nonneg (side : Side) (force : ℚ) (hf : 0 < force) (idx : Option Nat)
    (s : State) (hw : s.WF) (h : PowersNonneg s) :
    PowersNonneg (applyPull side force idx s) := by
  have hpo := applyPull_powersOnly side force idx s
  apply powersNonneg_of_ropeAt _ (hpo.WF hw)
  intro j hj
  rw [hpo.1] at hj
  obtain ⟨hl, hr⟩ := ropeAt_nonneg s h j
  cases idx with
  | none =>
    rw [applyPull_none_ropeAt side force s hw j hj]
    exact pullStep_nonneg side force hf _ _ hl hr
  | some i =>
    by_cases hi : i < s.positions.length
    · rw [applyPull_some_ropeAt side force i s hw hi j]
      split_ifs with e
      · obtain ⟨hl2, hr2⟩ := ropeAt_nonneg s h i
        exact pullStep_nonneg side force hf _ _ hl2 hr2
      · exact ⟨hl, hr⟩
    · rw [applyPull_out_of_range side force i s hw (Nat.le_of_not_lt hi)]
      exact ⟨hl, hr⟩

theorem roundEnd_nonneg (s : State) : PowersNonneg (roundEnd s) := by
  constructor
  · intro x hx
    simp only [roundEnd, List.mem_map] at hx
    obtain ⟨_, _, e⟩ := hx
    rw [← e]
  · intro x hx
    simp only [roundEnd, List.mem_map] at hx
    obtain ⟨_, _, e⟩ := hx
    rw [← e]

theorem tickBody_nonneg (exp : ℚ → ℚ) (h0 : ∀ x, 0 ≤ exp x) (ts : ℚ) (s : State) (hw : s.WF)
    (h : PowersNonneg s) : PowersNonneg (tickBody exp ts s) := by
  obtain ⟨b1, b2, -, -, -, -, b9⟩ := tickBody_spec exp ts s hw
  apply powersNonneg_of_ropeAt _ b1
  intro j hj
  rw [b9 j (by omega)]
  obtain ⟨hl, hr⟩ := ropeAt_nonneg s h j
  exact ropeStep_nonneg exp h0 _ _ hl hr

theorem tick_nonneg (exp : ℚ → ℚ) (h0 : ∀ x, 0 ≤ exp x) (ts : ℚ) (s : State) (hw : s.WF)
    (h : PowersNonneg s) : PowersNonneg (tick exp ts s) := by
  cases hr : s.running with
  | false =>
    rw [tick_idle exp ts s hr]
    exact h
  | true =>
    rw [tick_running exp ts s hr]
    split_ifs
    · exact roundEnd_nonneg _
    · exact tickBody_nonneg exp h0 ts s hw h

theorem reachable_nonneg (exp : ℚ → ℚ) (h0 : ∀ x, 0 ≤ exp x) (count : Nat) (s : State)
    (h : Reachable exp (fun f => 0 < f) count s) : PowersNonneg s := by
  induction h with
  | build => exact powersNonneg_replicate _ count count rfl rfl
  | @start d s _ ih =>
    cases hr : s.running with
    | true => rw [startRound_running d s hr]; exact ih
    | false =>
      obtain ⟨-, e2, e3, -⟩ := startRound_idle d s hr
      exact powersNonneg_replicate _ _ _ e2 e3
  | @pull side force idx s hf hs ih =>
    exact applyPull_nonneg side force hf idx s (reachable_WF exp _ count s hs) ih
  | @frame ts s hs ih =>
    exact tick_nonneg exp h0 ts s (reachable_WF exp _ count s hs) ih
  | @click d s _ ih =>
    obtain ⟨-, e2, e3⟩ := startBtnClick_baseline d s
    exact powersNonneg_replicate _ _ _ e2 e3

/-- A frame of a running round with `dt ≥ 0` raises no power that was nonnegative. -/
theorem tick_decays (exp : ℚ → ℚ) (h1 : ∀ x, x ≤ 0 → exp x ≤ 1) (ts : ℚ) (s : State)
    (hw : s.WF) (h : PowersNonneg s) (hr : s.running = true) (hdt : 0 ≤ tickDt ts s) (i : Nat)
    (hi : i < s.positions.length) :
    (tick exp ts s).leftPowers.getD i 0 ≤ s.leftPowers.getD i 0 ∧
    (tick exp ts s).rightPowers.getD i 0 ≤ s.rightPowers.getD i 0 := by
  obtain ⟨⟨b1, b1r⟩, b2, -, -, -, -, b9⟩ := tickBody_spec exp ts s hw
  obtain ⟨hl, hrr⟩ := ropeAt_nonneg s h i
  have hle := ropeStep_le exp h1 (tickDt ts s) hdt (ropeAt s i) hl hrr
  rw [← b9 i hi] at hle
  rw [tick_running exp ts s hr]
  split_ifs
  · have z1 := getElem?_map_zero (tickBody exp ts s).leftPowers i (by omega)
    have z2 := getElem?_map_zero (tickBody exp ts s).rightPowers i (by omega)
    simp only [roundEnd, List.getD_eq_getElem?_getD, z1, z2, Option.getD_some]
    exact ⟨by rw [← List.getD_eq_getElem?_getD]; exact hl,
      by rw [← List.getD_eq_getElem?_getD]; exact hrr⟩
  · exact hle

/-! ## The round outcome -/

theorem foldl_countStep (l : List ℚ) :
    ∀ c : Nat × Nat, l.foldl countStep c =
      (c.1 + l.countP (fun p => decide (p < 1 / 2)), c.2 + l.countP (fun p => decide (p > 1 / 2))) := by
  induction l with
  | nil => intro c; simp
  | cons a l ih =>
    intro c
    rw [List.foldl_cons, ih, List.countP_cons, List.countP_cons]
    by_cases h1 : a < 1 / 2
    · have h2 : ¬ a > 1 / 2 := not_lt.mpr (le_of_lt h1)
      have e : countStep c a = (c.1 + 1, c.2) := by unfold countStep; rw [if_pos h1]
      rw [e, decide_eq_true h1, decide_eq_false h2]
      simp only [↓reduceIte, Bool.false_eq_true]
      congr 1
      omega
    · by_cases h2 : a > 1 / 2
      · have e : countStep c a = (c.1, c.2 + 1) := by
          unfold countStep; rw [if_neg h1, if_pos h2]
        rw [e, decide_eq_false h1, decide_eq_true h2]
        simp only [↓reduceIte, Bool.false_eq_true]
        congr 1
        omega
      · have e : countStep c a = c := by
          unfold countStep; rw [if_neg h1, if_neg h2]
        rw [e, decide_eq_false h1, decide_eq_false h2]
        simp only [↓reduceIte, Bool.false_eq_true]
        rfl

theorem countSides_eq (l : List ℚ) :
    countSides l =
      (l.countP (fun p => decide (p < 1 / 2)), l.countP (fun p => decide (p > 1 / 2))) := by
  unfold countSides
  rw [foldl_countStep]
  simp only [Nat.zero_add]

/-! ## Sample runs -/

theorem contestedRun_eq (exp : ℚ → ℚ) : contestedRun exp = sampleContested := by
  have e1 : startRound 30 (buildRopes 5 initial) =
      runningRound [1 / 2, 1 / 2, 1 / 2, 1 / 2, 1 / 2] [0, 0, 0, 0, 0] [0, 0, 0, 0, 0] 30 0 := by
    norm_num [startRound, buildRopes, initial, runningRound, List.replicate]
  have e2 : tick exp 1000
      (runningRound [1 / 2, 1 / 2, 1 / 2, 1 / 2, 1 / 2] [0, 0, 0, 0, 0] [0, 0, 0, 0, 0] 30 0) =
      runningRound [1 / 2, 1 / 2, 1 / 2, 1 / 2, 1 / 2] [0, 0, 0, 0, 0] [0, 0, 0, 0, 0] 30 1000 := by
    norm_num [tick, tickBody, tickDt, advance, tickRope, runningRound, List.range,
      List.range.loop]
  have e3 : applyPull .left 100 (some 0)
      (runningRound [1 / 2, 1 / 2, 1 / 2, 1 / 2, 1 / 2] [0, 0, 0, 0, 0] [0, 0, 0, 0, 0] 30 1000) =
      runningRound [1 / 2, 1 / 2, 1 / 2, 1 / 2, 1 / 2] [100, 0, 0, 0, 0] [0, 0, 0, 0, 0] 30 1000 := by
    norm_num [applyPull, addPower, isSecured, securedCount, runningRound]
  have e4 : applyPull .left 100 (some 1)
      (runningRound [1 / 2, 1 / 2, 1 / 2, 1 / 2, 1 / 2] [100, 0, 0, 0, 0] [0, 0, 0, 0, 0] 30 1000) =
      runningRound [1 / 2, 1 / 2, 1 / 2, 1 / 2, 1 / 2] [100, 100, 0, 0, 0] [0, 0, 0, 0, 0] 30
        1000 := by
    norm_num [applyPull, addPower, isSecured, securedCount, runningRound]
  have e5 : applyPull .left 100 (some 2)
      (runningRound [1 / 2, 1 / 2, 1 / 2, 1 / 2, 1 / 2] [100, 100, 0, 0, 0] [0, 0, 0, 0, 0] 30
        1000) =
      runningRound [1 / 2, 1 / 2, 1 / 2, 1 / 2, 1 / 2] [100, 100, 100, 0, 0] [0, 0, 0, 0, 0] 30
        1000 := by
    norm_num [applyPull, addPower, isSecured, securedCount, runningRound]
  have e6 : applyPull .right 100 (some 4)
      (runningRound [1 / 2, 1 / 2, 1 / 2, 1 / 2, 1 / 2] [100, 100, 100, 0, 0] [0, 0, 0, 0, 0] 30
        1000) =
      runningRound [1 / 2, 1 / 2, 1 / 2, 1 / 2, 1 / 2] [100, 100, 100, 0, 0] [0, 0, 0, 0, 100] 30
        1000 := by
    norm_num [applyPull, addPower, isSecured, securedCount, runningRound]
  have e7 : tick exp 1048
      (runningRound [1 / 2, 1 / 2, 1 / 2, 1 / 2, 1 / 2] [100, 100, 100, 0, 0] [0, 0, 0, 0, 100] 30
        1000) = sampleContested := by
    norm_num [tick, tickBody, tickDt, advance, tickRope, runningRound, sampleContested,
      List.range, List.range.loop]
  unfold contestedRun
  rw [e1, e2, e3, e4, e5, e6, e7]

theorem contestedRun_reachable (exp : ℚ → ℚ) :
    Reachable exp (fun f => 0 < f) 5 (contestedRun exp) := by
  unfold contestedRun
  apply Reachable.frame
  apply Reachable.pull _ _ _ (by norm_num)
  apply Reachable.pull _ _ _ (by norm_num)
  apply Reachable.pull _ _ _ (by norm_num)
  apply Reachable.pull _ _ _ (by norm_num)
  apply Reachable.frame
  apply Reachable.start
  exact Reachable.build

theorem frames_succ (exp : ℚ → ℚ) (n : Nat) (ts : ℚ) (s : State) :
    frames exp (n + 1) ts s = frames exp n (ts + 48) (tick exp ts s) := rfl

theorem reachable_frames (exp : ℚ → ℚ) (okForce : ℚ → Prop) (count : Nat) :
    ∀ (n : Nat) (ts : ℚ) (s : State), Reachable exp okForce count s →
      Reachable exp okForce count (frames exp n ts s) := by
  intro n
  induction n with
  | zero => intro ts s h; exact h
  | succ n ih =>
    intro ts s h
    rw [frames_succ]
    exact ih _ _ (Reachable.frame ts h)

/-- A frame 48 ms after the last one leaves a parked rope parked while time remains. -/
theorem tick_parked (exp : ℚ → ℚ) (T L : ℚ) (hL : 0 < L) (hT : 0 < T - 48 / 1000) :
    tick exp (L + 48) (parked T L) = parked (T - 48 / 1000) (L + 48) := by
  have hL0 : L ≠ 0 := ne_of_gt hL
  have hT2 : ¬ T ≤ 6 / 125 := by
    intro h
    linarith
  have hd : tickDt (L + 48) (parked T L) = 48 := by
    simp [tickDt, parked, runningRound, hL0]
  simp only [tick, tickBody, hd]
  norm_num [advance, tickRope, parked, runningRound, List.range, List.range.loop, hT2]

/-- The frame that brings the clock of a parked rope to zero ends the round with a
point for the left side. -/
theorem tick_parked_end (exp : ℚ → ℚ) (T L : ℚ) (hL : 0 < L) (hT : T - 48 / 1000 ≤ 0) :
    (tick exp (L + 48) (parked T L)).running = false ∧
    (tick exp (L + 48) (parked T L)).leftScore = 1 := by
  have hL0 : L ≠ 0 := ne_of_gt hL
  have hd : tickDt (L + 48) (parked T L) = 48 := by
    simp [tickDt, parked, runningRound, hL0]
  have hT2 : T ≤ 6 / 125 := by linarith
  simp only [tick, tickBody, hd]
  norm_num [advance, tickRope, roundEnd, countSides, countStep, parked, runningRound, List.range,
    List.range.loop, hT2]

/-- Frames after the round has ended change neither `running` nor the score. -/
theorem frames_idle (exp : ℚ → ℚ) :
    ∀ (n : Nat) (ts : ℚ) (s : State), s.running = false →
      (frames exp n ts s).running = false ∧ (frames exp n ts s).leftScore = s.leftScore := by
  intro n
  induction n with
  | zero => intro ts s hr; exact ⟨hr, rfl⟩
  | succ n ih =>
    intro ts s hr
    rw [frames_succ, tick_idle exp ts s hr]
    exact ih (ts + 48) { s with lastTick := ts } hr

/-- A parked rope with `(n + 1) * 48` ms on the clock: the round ends at frame
`n + 1` with a point for the left side, and `m` further frames keep it so. -/
theorem frames_parked_end (exp : ℚ → ℚ) (m : Nat) :
    ∀ (n : Nat) (T L : ℚ), 0 < L → T = (n + 1) * (48 / 1000) →
      (frames exp (n + m + 1) (L + 48) (parked T L)).running = false ∧
      (frames exp (n + m + 1) (L + 48) (parked T L)).leftScore = 1 := by
  intro n
  induction n with
  | zero =>
    intro T L hL hT
    obtain ⟨h1, h2⟩ := tick_parked_end exp T L hL (by rw [hT]; norm_num)
    rw [Nat.zero_add, frames_succ]
    obtain ⟨i1, i2⟩ := frames_idle exp m (L + 48 + 48) _ h1
    exact ⟨i1, by rw [i2, h2]⟩
  | succ n ih =>
    intro T L hL hT
    have hn : (0 : ℚ) ≤ n := Nat.cast_nonneg n
    have e : n + 1 + m + 1 = (n + m + 1) + 1 := by omega
    rw [e, frames_succ, tick_parked exp T L hL (by rw [hT]; push_cast; linarith)]
    exact ih (T - 48 / 1000) (L + 48) (by linarith) (by rw [hT]; push_cast; ring)

theorem scoredRun_reachable (exp : ℚ → ℚ) :
    Reachable exp (fun f => 0 < f) 1 (scoredRun exp) := by
  unfold scoredRun
  apply reachable_frames
  apply Reachable.pull _ _ _ (by norm_num)
  apply Reachable.frame
  apply Reachable.start
  exact Reachable.build

theorem scoredRun_scored (exp : ℚ → ℚ) :
    (scoredRun exp).running = false ∧ (scoredRun exp).leftScore = 1 := by
  have e1 : startRound 30 (buildRopes 1 initial) = runningRound [1 / 2] [0] [0] 30 0 := by
    norm_num [startRound, buildRopes, initial, runningRound, List.replicate]
  have e2 : tick exp 1000 (runningRound [1 / 2] [0] [0] 30 0) =
      runningRound [1 / 2] [0] [0] 30 1000 := by
    norm_num [tick, tickBody, tickDt, advance, tickRope, runningRound, List.range,
      List.range.loop]
  have e3 : applyPull .left 100 (some 0) (runningRound [1 / 2] [0] [0] 30 1000) =
      runningRound [1 / 2] [100] [0] 30 1000 := by
    norm_num [applyPull, addPower, isSecured, securedCount, runningRound]
  have e4 : tick exp 1048 (runningRound [1 / 2] [100] [0] 30 1000) =
      parked (3744 / 125) 1048 := by
    norm_num [tick, tickBody, tickDt, advance, tickRope, runningRound, parked, List.range,
      List.range.loop]
  unfold scoredRun
  rw [e1, e2, e3, show (626 : Nat) = 625 + 1 from rfl, frames_succ, e4,
    show (625 : Nat) = 623 + 1 + 1 from rfl]
  exact frames_parked_end exp 1 623 (3744 / 125) 1048 (by norm_num) (by norm_num)

theorem overSecuredRun_eq (exp : ℚ → ℚ) :
    overSecuredRun exp =
      runningRound [0, 0, 0, 0, 0] [0, 0, 0, 0, 0] [0, 0, 0, 0, 0] (3744 / 125) 1048 := by
  have e1 : startRound 30 (buildRopes 5 initial) =
      runningRound [1 / 2, 1 / 2, 1 / 2, 1 / 2, 1 / 2] [0, 0, 0, 0, 0] [0, 0, 0, 0, 0] 30 0 := by
    norm_num [startRound, buildRopes, initial, runningRound, List.replicate]
  have e2 : tick exp 1000
      (runningRound [1 / 2, 1 / 2, 1 / 2, 1 / 2, 1 / 2] [0, 0, 0, 0, 0] [0, 0, 0, 0, 0] 30 0) =
      runningRound [1 / 2, 1 / 2, 1 / 2, 1 / 2, 1 / 2] [0, 0, 0, 0, 0] [0, 0, 0, 0, 0] 30 1000 := by
    norm_num [tick, tickBody, tickDt, advance, tickRope, runningRound, List.range,
      List.range.loop]
  have e3 : applyPull .left 100 none
      (runningRound [1 / 2, 1 / 2, 1 / 2, 1 / 2, 1 / 2] [0, 0, 0, 0, 0] [0, 0, 0, 0, 0] 30 1000) =
      runningRound [1 / 2, 1 / 2, 1 / 2, 1 / 2, 1 / 2] [100, 100, 100, 100, 100] [0, 0, 0, 0, 0]
        30 1000 := by
    norm_num [applyPull, globalStep, addPower, isSecured, securedCount, runningRound, List.range,
      List.range.loop]
  have e4 : tick exp 1048
      (runningRound [1 / 2, 1 / 2, 1 / 2, 1 / 2, 1 / 2] [100, 100, 100, 100, 100] [0, 0, 0, 0, 0]
        30 1000) =
      runningRound [0, 0, 0, 0, 0] [0, 0, 0, 0, 0] [0, 0, 0, 0, 0] (3744 / 125) 1048 := by
    norm_num [tick, tickBody, tickDt, advance, tickRope, runningRound, List.range,
      List.range.loop]
  unfold overSecuredRun
  rw [e1, e2, e3, e4]

theorem overSecuredRun_reachable (exp : ℚ → ℚ) :
    Reachable exp (fun f => 0 < f) 5 (overSecuredRun exp) := by
  unfold overSecuredRun
  apply Reachable.frame
  apply Reachable.pull _ _ _ (by norm_num)
  apply Reachable.frame
  apply Reachable.start
  exact Reachable.build

theorem expSample_nonneg (x : ℚ) : 0 ≤ expSample x := by
  unfold expSample
  split_ifs with h
  · apply div_nonneg (by norm_num)
    linarith
  · linarith

theorem expSample_le_one (x : ℚ) (h : x ≤ 0) : expSample x ≤ 1 := by
  unfold expSample
  rw [if_pos h]
  rw [div_le_one (by linarith)]
  linarith

theorem pulledRun_eq : pulledRun = runningRound [1 / 2, 1 / 2] [1, 1] [0, 0] 30 0 := by
  have e1 : startRound 30 (buildRopes 2 initial) =
      runningRound [1 / 2, 1 / 2] [0, 0] [0, 0] 30 0 := by
    norm_num [startRound, buildRopes, initial, runningRound, List.replicate]
  unfold pulledRun
  rw [e1]
  norm_num [applyPull, globalStep, addPower, isSecured, securedCount, runningRound, List.range,
    List.range.loop]

theorem pulledRun_reachable (exp : ℚ → ℚ) : Reachable exp (fun f => 0 < f) 2 pulledRun := by
  unfold pulledRun
  apply Reachable.pull _ _ _ (by norm_num)
  apply Reachable.start
  exact Reachable.build

/-! ## The claims -/

/-- C1 (clamp invariant). For every well-formed state with `running = true` and
every timestamp, after `tick(ts)` every position lies in `[0, 1]`; hence every
position lies in `[0, 1]` in every state reached from `buildRopes(count)` by
`startRound`, `applyPull` (any force, any target), `tick` and the start/reset
button. -/
theorem C1_clamp_invariant :
    (∀ (exp : ℚ → ℚ) (ts : ℚ) (s : State), s.WF → s.running = true →
      ∀ p ∈ (tick exp ts s).positions, 0 ≤ p ∧ p ≤ 1) ∧
    (∀ (exp : ℚ → ℚ) (count : Nat) (s : State), Reachable exp (fun _ => True) count s →
      ∀ p ∈ s.positions, 0 ≤ p ∧ p ≤ 1) :=
  ⟨tick_clamps, fun exp count s h => reachable_positions exp _ count s h⟩

/-- C1 at `sampleRunning`: the frame at `ts = 1048` clamps rope 0 to 0, keeps
ropes 1 and 2 at their edges and moves rope 3 inside the course. -/
theorem C1_clamp_invariant_witness :
    sampleRunning.WF ∧ sampleRunning.running = true ∧
    (tick expSample 1048 sampleRunning).positions = [0, 0, 1, 299 / 625] ∧
    (∀ p ∈ (tick expSample 1048 sampleRunning).positions, 0 ≤ p ∧ p ≤ 1) :=
  ⟨by decide, rfl,
    by norm_num [tick, tickBody, tickDt, advance, tickRope, sampleRunning, List.range,
      List.range.loop],
    C1_clamp_invariant.1 expSample 1048 sampleRunning (by decide) rfl⟩

/-- C2 (scarcity invariant) on the code: `overSecuredRun` is a state of play, built
from `buildRopes(5)` by `startRound`, a frame, `applyPull('left', 100, null)` and
a frame 48 ms later, and in it all five ropes are at position 0, so the left
side holds five ropes. This holds for every `Math.exp`. -/
theorem C2_scarcity_exceeded (exp : ℚ → ℚ) :
    Reachable exp (fun f => 0 < f) 5 (overSecuredRun exp) ∧
    (overSecuredRun exp).positions = [0, 0, 0, 0, 0] ∧
    securedCount (overSecuredRun exp).positions .left = 5 := by
  refine ⟨overSecuredRun_reachable exp, ?_, ?_⟩
  · rw [overSecuredRun_eq]
    rfl
  · rw [overSecuredRun_eq]
    simp [securedCount, runningRound]

/-- C3 (gating of an indexed pull). For an index in range, when `positions[i]` is
at the side's edge or fewer than three ropes are at that edge, `applyPull(side,
f, i)` adds `f` to rope `i`'s power for that side and changes no other power of
that side, no power of the other side, no position and no other variable; in
every other case the state is unchanged. In particular, with ropes 0, 1, 2 at
position 0 and rope 3 elsewhere, `applyPull('left', 1, 3)` leaves `leftPowers`
as it is. Holds for every force, positive or not. -/
theorem C3_indexed_pull_gating (side : Side) (f : ℚ) (i : Nat) (s : State) (hw : s.WF)
    (hi : i < s.positions.length) :
    ((s.positions[i]? = some side.edge ∨ s.positions.count side.edge < 3) →
      (powers side (applyPull side f (some i) s))[i]? = some ((powers side s).getD i 0 + f) ∧
      (∀ j, j ≠ i → (powers side (applyPull side f (some i) s))[j]? = (powers side s)[j]?) ∧
      otherPowers side (applyPull side f (some i) s) = otherPowers side s ∧
      (applyPull side f (some i) s).positions = s.positions ∧
      PowersOnly s (applyPull side f (some i) s)) ∧
    (¬ (s.positions[i]? = some side.edge ∨ s.positions.count side.edge < 3) →
      applyPull side f (some i) s = s) ∧
    (∀ (t : State) (p : ℚ) (rest : List ℚ), t.positions = 0 :: 0 :: 0 :: p :: rest → p ≠ 0 →
      (applyPull .left 1 (some 3) t).leftPowers = t.leftPowers) := by
  refine ⟨?_, (applyPull_some_cases side f i s).2, ?_⟩
  · intro hg
    rw [(applyPull_some_cases side f i s).1 hg]
    obtain ⟨a1, a2, a3⟩ := addPower_spec side f i s hw hi
    exact ⟨a1, a2, a3, (addPower_powersOnly side f i s).1, addPower_powersOnly side f i s⟩
  · intro t p rest ht hp
    rw [(applyPull_some_cases .left 1 3 t).2]
    rw [ht]
    simp [Side.edge, hp]

/-- C3 at `sampleContested` (Scenario B): the left side holds ropes 0, 1, 2, so a
left pull on rope 3 changes nothing, while a right pull on rope 3 is accepted
and raises `rightPowers[3]` from 0 to 1. -/
theorem C3_indexed_pull_gating_witness :
    sampleContested.WF ∧ 3 < sampleContested.positions.length ∧
    applyPull .left 1 (some 3) sampleContested = sampleContested ∧
    (applyPull .right 1 (some 3) sampleContested).rightPowers[3]? = some 1 := by
  refine ⟨by decide, by decide, ?_, ?_⟩
  · exact (C3_indexed_pull_gating .left 1 3 sampleContested (by decide) (by decide)).2.1
      (by norm_num [sampleContested, Side.edge])
  · have h := ((C3_indexed_pull_gating .right 1 3 sampleContested (by decide) (by decide)).1
      (Or.inr (by norm_num [sampleContested, Side.edge]))).1
    simpa [powers, sampleContested] using h

/-- C4 (round outcome). On a running round whose clock reaches zero or less in
this frame, with `L` the ropes left of the middle and `R` the ropes right of
it after the frame: `L > R` adds one to `leftScore` only, `R > L` adds one to
`rightScore` only, `L = R` changes neither; the frame is the outcome step
`roundEnd` applied to the state the loop and the clock update produced, and
`roundEnd` alters no position. -/
theorem C4_round_outcome (exp : ℚ → ℚ) (ts : ℚ) (s : State) (hw : s.WF)
    (hr : s.running = true) (hend : s.timeLeft - tickDt ts s / 1000 ≤ 0) :
    (((tick exp ts s).positions.countP (fun p => decide (p < 1 / 2)) >
        (tick exp ts s).positions.countP (fun p => decide (p > 1 / 2))) →
      (tick exp ts s).leftScore = s.leftScore + 1 ∧ (tick exp ts s).rightScore = s.rightScore) ∧
    (((tick exp ts s).positions.countP (fun p => decide (p > 1 / 2)) >
        (tick exp ts s).positions.countP (fun p => decide (p < 1 / 2))) →
      (tick exp ts s).rightScore = s.rightScore + 1 ∧ (tick exp ts s).leftScore = s.leftScore) ∧
    (((tick exp ts s).positions.countP (fun p => decide (p < 1 / 2)) =
        (tick exp ts s).positions.countP (fun p => decide (p > 1 / 2))) →
      (tick exp ts s).leftScore = s.leftScore ∧ (tick exp ts s).rightScore = s.rightScore) ∧
    tick exp ts s = roundEnd (tickBody exp ts s) ∧
    (roundEnd (tickBody exp ts s)).positions = (tickBody exp ts s).positions := by
  obtain ⟨-, -, -, h4, h5, h6, -⟩ := tickBody_spec exp ts s hw
  have ht : tick exp ts s = roundEnd (tickBody exp ts s) := by
    rw [tick_running exp ts s hr, if_pos (by rw [h4]; exact hend)]
  rw [ht]
  have hl : (roundEnd (tickBody exp ts s)).leftScore =
      if (countSides (tickBody exp ts s).positions).1 > (countSides (tickBody exp ts s).positions).2
      then s.leftScore + 1 else s.leftScore := by
    simp only [roundEnd, h5]
  have hrs : (roundEnd (tickBody exp ts s)).rightScore =
      if (countSides (tickBody exp ts s).positions).1 > (countSides (tickBody exp ts s).positions).2
      then s.rightScore
      else if (countSides (tickBody exp ts s).positions).2 >
          (countSides (tickBody exp ts s).positions).1
        then s.rightScore + 1 else s.rightScore := by
    simp only [roundEnd, h6]
  rw [hl, hrs, roundEnd_positions, countSides_eq]
  simp only
  refine ⟨?_, ?_, ?_, trivial, trivial⟩
  · intro h
    rw [if_pos h, if_pos h]
    exact ⟨rfl, rfl⟩
  · intro h
    have h2 : ¬ (List.countP (fun p => decide (p < 1 / 2)) (tickBody exp ts s).positions >
        List.countP (fun p => decide (p > 1 / 2)) (tickBody exp ts s).positions) := by omega
    rw [if_neg h2, if_neg h2, if_pos h]
    exact ⟨rfl, rfl⟩
  · intro h
    have h2 : ¬ (List.countP (fun p => decide (p < 1 / 2)) (tickBody exp ts s).positions >
        List.countP (fun p => decide (p > 1 / 2)) (tickBody exp ts s).positions) := by omega
    have h3 : ¬ (List.countP (fun p => decide (p > 1 / 2)) (tickBody exp ts s).positions >
        List.countP (fun p => decide (p < 1 / 2)) (tickBody exp ts s).positions) := by omega
    rw [if_neg h2, if_neg h2, if_neg h3]
    exact ⟨rfl, rfl⟩

/-- C4 at Scenario C (`sampleExpiring`): three ropes left of the middle, two right
of it, the clock runs out in the frame at `ts = 1048`; the left side scores
once, the right side does not, and the positions are those before the frame. -/
theorem C4_round_outcome_witness :
    sampleExpiring.WF ∧ sampleExpiring.running = true ∧
    sampleExpiring.timeLeft - tickDt 1048 sampleExpiring / 1000 ≤ 0 ∧
    (tick expSample 1048 sampleExpiring).positions = [1 / 5, 3 / 10, 2 / 5, 3 / 5, 7 / 10] ∧
    (tick expSample 1048 sampleExpiring).leftScore = 1 ∧
    (tick expSample 1048 sampleExpiring).rightScore = 0 := by
  have hend : sampleExpiring.timeLeft - tickDt 1048 sampleExpiring / 1000 ≤ 0 := by
    norm_num [tickDt, sampleExpiring]
  have hp : (tick expSample 1048 sampleExpiring).positions =
      [1 / 5, 3 / 10, 2 / 5, 3 / 5, 7 / 10] := by
    norm_num [tick, tickBody, tickDt, advance, tickRope, roundEnd, sampleExpiring, List.range,
      List.range.loop]
  have h := (C4_round_outcome expSample 1048 sampleExpiring (by decide) rfl hend).1
    (by rw [hp]; norm_num [List.countP_cons])
  exact ⟨by decide, rfl, hend, hp, h.1, h.2⟩

/-- C5 fails as stated: `scoredRun` (one left pull, then 626 frames 48 ms apart) is
a state of play in which a 30-second round has run to expiry and the left side
has scored; no round is running, so the start/reset button starts a new round
and `leftScore` is still 1 afterwards. -/
theorem C5_reset_keeps_score_counterexample :
    (∀ exp : ℚ → ℚ, Reachable exp (fun f => 0 < f) 1 (scoredRun exp)) ∧
    (∀ exp : ℚ → ℚ, (scoredRun exp).running = false ∧ (scoredRun exp).leftScore = 1) ∧
    (∀ exp : ℚ → ℚ, (startBtnClick 30 (scoredRun exp)).leftScore = 1) := by
  refine ⟨scoredRun_reachable, scoredRun_scored, ?_⟩
  intro exp
  obtain ⟨hr, hs⟩ := scoredRun_scored exp
  rw [startBtnClick_idle 30 _ hr, (startRound_idle 30 _ hr).2.2.2.1, hs]

/-- C5 as amended. In every state the start/reset button leaves every rope at
position 0.5 with both powers 0; while a round is running it also zeroes both
win counters and stops the round; while no round is running it starts a round
and leaves both win counters as they are. -/
theorem C5_reset_button (d : ℚ) (s : State) :
    (startBtnClick d s).positions = List.replicate s.positions.length (1 / 2) ∧
    (startBtnClick d s).leftPowers = List.replicate s.leftPowers.length 0 ∧
    (startBtnClick d s).rightPowers = List.replicate s.rightPowers.length 0 ∧
    (s.running = true →
      (startBtnClick d s).leftScore = 0 ∧ (startBtnClick d s).rightScore = 0 ∧
      (startBtnClick d s).running = false) ∧
    (s.running = false →
      (startBtnClick d s).leftScore = s.leftScore ∧
      (startBtnClick d s).rightScore = s.rightScore ∧
      (startBtnClick d s).running = true) := by
  obtain ⟨b1, b2, b3⟩ := startBtnClick_baseline d s
  refine ⟨b1, b2, b3, ?_, ?_⟩
  · intro hr
    obtain ⟨-, -, -, h4, h5, h6⟩ := startBtnClick_running d s hr
    exact ⟨h4, h5, h6⟩
  · intro hr
    rw [startBtnClick_idle d s hr]
    obtain ⟨-, -, -, h4, h5, h6⟩ := startRound_idle d s hr
    exact ⟨h4, h5, h6⟩

/-- C5 as amended, at `sampleRunning` with a left score of 2: the button, pressed
while the round runs, puts the four ropes at the baseline and zeroes the
score. -/
theorem C5_reset_button_witness :
    (startBtnClick 30 { sampleRunning with leftScore := 2 }).positions =
      [1 / 2, 1 / 2, 1 / 2, 1 / 2] ∧
    (startBtnClick 30 { sampleRunning with leftScore := 2 }).leftPowers = [0, 0, 0, 0] ∧
    (startBtnClick 30 { sampleRunning with leftScore := 2 }).leftScore = 0 := by
  have h := C5_reset_button 30 { sampleRunning with leftScore := 2 }
  exact ⟨h.1, h.2.1, (h.2.2.2.1 rfl).1⟩

/-- C6 fails as stated: `sampleContested` arises in play (`contestedRun`), its
rope 4 is at position 1, and `applyPull('left', 1, 4)` is rejected because the
left side already holds three ropes: the state, and with it `leftPowers[4]`,
is unchanged. -/
theorem C6_contest_blocked_counterexample :
    (∀ exp : ℚ → ℚ, contestedRun exp = sampleContested) ∧
    (∀ exp : ℚ → ℚ, Reachable exp (fun f => 0 < f) 5 (contestedRun exp)) ∧
    sampleContested.positions[4]? = some 1 ∧
    applyPull .left 1 (some 4) sampleContested = sampleContested := by
  refine ⟨contestedRun_eq, contestedRun_reachable, by decide, ?_⟩
  norm_num [applyPull, isSecured, securedCount, sampleContested]

/-- C6 as amended. A pull toward the side opposite to the edge a rope sits at is
gated like any other pull: for a rope at position 1, `applyPull('left', f, i)`
raises `leftPowers[i]` by `f` when fewer than three ropes are at position 0 and
leaves the state unchanged when three or more are; symmetrically for a rope at
position 0 and `applyPull('right', f, i)`. -/
theorem C6_contest_within_scarcity (f : ℚ) (i : Nat) (s : State) (hw : s.WF)
    (hi : i < s.positions.length) :
    (s.positions[i]? = some 1 →
      (s.positions.count 0 < 3 →
        (applyPull .left f (some i) s).leftPowers[i]? = some (s.leftPowers.getD i 0 + f)) ∧
      (3 ≤ s.positions.count 0 → applyPull .left f (some i) s = s)) ∧
    (s.positions[i]? = some 0 →
      (s.positions.count 1 < 3 →
        (applyPull .right f (some i) s).rightPowers[i]? = some (s.rightPowers.getD i 0 + f)) ∧
      (3 ≤ s.positions.count 1 → applyPull .right f (some i) s = s)) := by
  constructor
  · intro hp
    constructor
    · intro hc
      rw [(applyPull_some_cases .left f i s).1 (Or.inr hc)]
      exact (addPower_spec .left f i s hw hi).1
    · intro hc
      apply (applyPull_some_cases .left f i s).2
      rw [hp]
      simp only [Side.edge]
      intro h
      rcases h with h | h
      · exact absurd (Option.some.inj h) (by norm_num)
      · omega
  · intro hp
    constructor
    · intro hc
      rw [(applyPull_some_cases .right f i s).1 (Or.inr hc)]
      exact (addPower_spec .right f i s hw hi).1
    · intro hc
      apply (applyPull_some_cases .right f i s).2
      rw [hp]
      simp only [Side.edge]
      intro h
      rcases h with h | h
      · exact absurd (Option.some.inj h) (by norm_num)
      · omega

/-- C6 as amended, at `sampleContested`: the right side holds one rope, so its pull
on rope 0 (at position 0) raises `rightPowers[0]` from 0 to 1. -/
theorem C6_contest_within_scarcity_witness :
    sampleContested.WF ∧ 0 < sampleContested.positions.length ∧
    sampleContested.positions[0]? = some 0 ∧
    (applyPull .right 1 (some 0) sampleContested).rightPowers[0]? = some 1 := by
  have h := ((C6_contest_within_scarcity 1 0 sampleContested (by decide) (by decide)).2
    (by decide)).1 (by norm_num [sampleContested])
  refine ⟨by decide, by decide, by decide, ?_⟩
  simpa [sampleContested] using h

/-- C7 (global pull). `applyPull(side, f, null)` produces the same state as the
indexed pulls `applyPull(side, f, 0)`, ..., `applyPull(side, f, N - 1)` applied
in sequence; no position changes, and rope `i`'s power for that side grows by
`f` exactly when `positions[i]` is at the side's edge or fewer than three ropes
are at that edge before the call, the other side's power staying as it is. -/
theorem C7_global_pull_gating (side : Side) (f : ℚ) (s : State) (hw : s.WF) :
    applyPull side f none s =
      (List.range s.positions.length).foldl (fun st i => applyPull side f (some i) st) s ∧
    (applyPull side f none s).positions = s.positions ∧
    ∀ i, i < s.positions.length →
      (powers side (applyPull side f none s))[i]? =
        some (if s.positions[i]? = some side.edge ∨ s.positions.count side.edge < 3
          then (powers side s).getD i 0 + f else (powers side s).getD i 0) ∧
      (otherPowers side (applyPull side f none s))[i]? = (otherPowers side s)[i]? := by
  have hpo := applyPull_powersOnly side f none s
  refine ⟨?_, hpo.1, ?_⟩
  · rw [indexedFold_eq side f s _ s rfl]
    rfl
  · intro i hi
    obtain ⟨w1, w2⟩ := hw
    obtain ⟨-, l1, l2, -⟩ := hpo
    have hr := applyPull_none_ropeAt side f s ⟨w1, w2⟩ i hi
    obtain ⟨-, hs⟩ := pullStep_spec side f (securedCount s.positions side) (ropeAt s i)
    rw [← hr, securedCount_eq_count] at hs
    have hpos : (s.positions[i]? = some side.edge) = ((ropeAt s i).1 = side.edge) := by
      rw [getElem?_of_getD _ _ hi]
      simp [ropeAt]
    simp only [hpos]
    cases side
    · obtain ⟨hs1, hs2⟩ := hs
      have a1 : i < (applyPull .left f none s).leftPowers.length := by omega
      have a2 : i < (applyPull .left f none s).rightPowers.length := by omega
      constructor
      · simp only [powers]
        rw [getElem?_of_getD _ _ a1]
        exact congrArg some hs1
      · simp only [otherPowers]
        rw [getElem?_of_getD _ _ a2, getElem?_of_getD _ _ (by omega : i < s.rightPowers.length)]
        exact congrArg some hs2
    · obtain ⟨hs1, hs2⟩ := hs
      have a1 : i < (applyPull .right f none s).leftPowers.length := by omega
      have a2 : i < (applyPull .right f none s).rightPowers.length := by omega
      constructor
      · simp only [powers]
        rw [getElem?_of_getD _ _ a2]
        exact congrArg some hs1
      · simp only [otherPowers]
        rw [getElem?_of_getD _ _ a1, getElem?_of_getD _ _ (by omega : i < s.leftPowers.length)]
        exact congrArg some hs2

/-- C7 at `sampleContested`: the left side holds ropes 0, 1, 2, so a global left
pull of force 2 tops up exactly those three ropes, and the five indexed pulls in
sequence give the same state. -/
theorem C7_global_pull_gating_witness :
    sampleContested.WF ∧
    (applyPull .left 2 none sampleContested).leftPowers = [2, 2, 2, 0, 0] ∧
    applyPull .left 2 none sampleContested =
      applyPull .left 2 (some 4) (applyPull .left 2 (some 3) (applyPull .left 2 (some 2)
        (applyPull .left 2 (some 1) (applyPull .left 2 (some 0) sampleContested)))) := by
  refine ⟨by decide, ?_, ?_⟩
  · norm_num [applyPull, globalStep, addPower, isSecured, securedCount, sampleContested,
      List.range, List.range.loop]
  · rw [(C7_global_pull_gating .left 2 sampleContested (by decide)).1]
    simp [sampleContested, List.range, List.range.loop]

/-- C8 (the edge freezes the securing side). After a frame of a running round, a
rope at position 0 has `leftPowers[i] = 0` and a rope at position 1 has
`rightPowers[i] = 0`. -/
theorem C8_edge_freezes_power (exp : ℚ → ℚ) (ts : ℚ) (s : State) (i : Nat) (hw : s.WF)
    (hr : s.running = true) :
    ((tick exp ts s).positions[i]? = some 0 → (tick exp ts s).leftPowers[i]? = some 0) ∧
    ((tick exp ts s).positions[i]? = some 1 → (tick exp ts s).rightPowers[i]? = some 0) := by
  obtain ⟨⟨w1, w2⟩, h2, -, -, -, -, h9⟩ := tickBody_spec exp ts s hw
  rw [tick_positions exp ts s hr]
  have key : ∀ v : ℚ, (tickBody exp ts s).positions[i]? = some v →
      i < (tickBody exp ts s).positions.length ∧ (ropeAt (tickBody exp ts s) i).1 = v := by
    intro v hv
    obtain ⟨hi, e⟩ := List.getElem?_eq_some.mp hv
    refine ⟨hi, ?_⟩
    simp only [ropeAt, List.getD_eq_getElem?_getD, hv, Option.getD_some]
  have hedge := ropeStep_edge exp (tickDt ts s) (ropeAt s i)
  constructor
  · intro hv
    obtain ⟨hi, e⟩ := key 0 hv
    rw [h9 i (by omega)] at e
    have hl : (tickBody exp ts s).leftPowers.getD i 0 = 0 := by
      have := hedge.1 e
      rw [← h9 i (by omega)] at this
      exact this
    have hil : i < (tickBody exp ts s).leftPowers.length := by omega
    rw [tick_running exp ts s hr]
    split_ifs
    · exact getElem?_map_zero _ i hil
    · rw [getElem?_of_getD _ _ hil, hl]
  · intro hv
    obtain ⟨hi, e⟩ := key 1 hv
    rw [h9 i (by omega)] at e
    have hl : (tickBody exp ts s).rightPowers.getD i 0 = 0 := by
      have := hedge.2 e
      rw [← h9 i (by omega)] at this
      exact this
    have hil : i < (tickBody exp ts s).rightPowers.length := by omega
    rw [tick_running exp ts s hr]
    split_ifs
    · exact getElem?_map_zero _ i hil
    · rw [getElem?_of_getD _ _ hil, hl]

/-- C8 at `sampleRunning`: rope 0 is driven to position 0 with a left power of
30 and leaves the frame with `leftPowers[0] = 0`. -/
theorem C8_edge_freezes_power_witness :
    sampleRunning.WF ∧ sampleRunning.running = true ∧
    (tick expSample 1048 sampleRunning).positions[0]? = some 0 ∧
    (tick expSample 1048 sampleRunning).leftPowers[0]? = some 0 := by
  have hp : (tick expSample 1048 sampleRunning).positions[0]? = some 0 := by
    norm_num [tick, tickBody, tickDt, advance, tickRope, sampleRunning, List.range,
      List.range.loop]
  exact ⟨by decide, rfl, hp,
    (C8_edge_freezes_power expSample 1048 sampleRunning 0 (by decide) rfl).1 hp⟩

/-- C9 fails as stated: on the running round `sampleRunning`, `startRound` returns
the state unchanged; `applyPull('left', -1, 3)` returns with `leftPowers[3]`
lowered from 1 to 0; `applyPull('left', 1, 9)`, an index beyond the four ropes,
returns with every rope as it was. None of the three calls fails. -/
theorem C9_no_fail_fast_counterexample :
    sampleRunning.running = true ∧
    startRound 30 sampleRunning = sampleRunning ∧
    sampleRunning.leftPowers = [30, 0, 0, 1] ∧
    (applyPull .left (-1) (some 3) sampleRunning).leftPowers = [30, 0, 0, 0] ∧
    applyPull .left 1 (some 9) sampleRunning = sampleRunning := by
  refine ⟨rfl, rfl, rfl, ?_, ?_⟩
  · norm_num [applyPull, addPower, isSecured, securedCount, sampleRunning]
  · norm_num [applyPull, addPower, isSecured, securedCount, sampleRunning]

/-- C9 as amended. None of the three calls fails, each returns a state:
`startRound` during a running round returns the state unchanged; `applyPull`
with any force, positive or not, on an index in range whose gate is open adds
the force as given to that rope's power; `applyPull` with an index beyond the
ropes returns the state unchanged. -/
theorem C9_invalid_input_tolerated :
    (∀ (d : ℚ) (s : State), s.running = true → startRound d s = s) ∧
    (∀ (side : Side) (f : ℚ) (i : Nat) (s : State), s.WF → i < s.positions.length →
      (s.positions[i]? = some side.edge ∨ s.positions.count side.edge < 3) →
      (powers side (applyPull side f (some i) s))[i]? = some ((powers side s).getD i 0 + f)) ∧
    (∀ (side : Side) (f : ℚ) (i : Nat) (s : State), s.WF → s.positions.length ≤ i →
      applyPull side f (some i) s = s) := by
  refine ⟨startRound_running, ?_, ?_⟩
  · intro side f i s hw hi hg
    rw [(applyPull_some_cases side f i s).1 hg]
    exact (addPower_spec side f i s hw hi).1
  · intro side f i s hw hi
    exact applyPull_out_of_range side f i s hw hi

/-- C9 as amended, at `sampleRunning`: a right pull of force `-2` on rope 2, whose
right power is 5, is accepted and leaves `rightPowers[2] = 3`. -/
theorem C9_invalid_input_tolerated_witness :
    sampleRunning.WF ∧ 2 < sampleRunning.positions.length ∧
    sampleRunning.positions[2]? = some 1 ∧
    (applyPull .right (-2) (some 2) sampleRunning).rightPowers[2]? = some 3 := by
  have h := C9_invalid_input_tolerated.2.1 .right (-2) 2 sampleRunning (by decide) (by decide)
    (Or.inl (by decide))
  refine ⟨by decide, by decide, by decide, ?_⟩
  norm_num [powers, sampleRunning] at h
  exact h

/-- C10 (power non-negativity). For a `Math.exp` that is nonnegative and at most 1
on nonpositive arguments, in every state reached from `buildRopes(count)` by
`startRound`, the start/reset button, `tick` and `applyPull` with a positive
force, every `leftPowers[i]` and every `rightPowers[i]` is nonnegative; and a
frame of a running round with `dt ≥ 0` leaves every power at most what it
was. -/
theorem C10_powers_nonneg (exp : ℚ → ℚ) (h0 : ∀ x, 0 ≤ exp x) (h1 : ∀ x, x ≤ 0 → exp x ≤ 1)
    (count : Nat) (s : State) (h : Reachable exp (fun f => 0 < f) count s) :
    (∀ x ∈ s.leftPowers, 0 ≤ x) ∧ (∀ x ∈ s.rightPowers, 0 ≤ x) ∧
    (∀ (ts : ℚ) (i : Nat), s.running = true → 0 ≤ tickDt ts s → i < s.positions.length →
      (tick exp ts s).leftPowers.getD i 0 ≤ s.leftPowers.getD i 0 ∧
      (tick exp ts s).rightPowers.getD i 0 ≤ s.rightPowers.getD i 0) := by
  have hn := reachable_nonneg exp h0 count s h
  refine ⟨hn.1, hn.2, ?_⟩
  intro ts i hr hdt hi
  exact tick_decays exp h1 ts s (reachable_WF exp _ count s h) hn hr hdt i hi

/-- C10 at `pulledRun` with `expSample`: after a global left pull of force 1 both
left powers are 1, and the first frame (`dt = 0`) does not raise rope 0's. -/
theorem C10_powers_nonneg_witness :
    (∀ x, 0 ≤ expSample x) ∧ (∀ x, x ≤ 0 → expSample x ≤ 1) ∧
    Reachable expSample (fun f => 0 < f) 2 pulledRun ∧
    pulledRun.leftPowers = [1, 1] ∧
    (∀ x ∈ pulledRun.leftPowers, 0 ≤ x) ∧
    (tick expSample 1000 pulledRun).leftPowers.getD 0 0 ≤ pulledRun.leftPowers.getD 0 0 := by
  have h := C10_powers_nonneg expSample expSample_nonneg expSample_le_one 2 pulledRun
    (pulledRun_reachable expSample)
  refine ⟨expSample_nonneg, expSample_le_one, pulledRun_reachable expSample, ?_, h.1, ?_⟩
  · rw [pulledRun_eq]
    rfl
  · refine (h.2.2 1000 0 ?_ ?_ ?_).1
    · rw [pulledRun_eq]
      rfl
    · rw [pulledRun_eq]
      norm_num [tickDt, runningRound]
    · rw [pulledRun_eq]
      decide

/-- C11 (the pull that starts a round is discarded). With no round running, the
handler body `applyPull(side, force, target); if (!running) startRound()` yields
the same state as `startRound()` alone, for every side, force and target: every
position is 0.5 and every left and right power is 0, so the pull adds no force
to the new round. -/
theorem C11_starting_pull_discarded (side : Side) (f : ℚ) (idx : Option Nat) (d : ℚ)
    (s : State) (hr : s.running = false) :
    pullClick side f idx d s = startRound d s ∧
    (pullClick side f idx d s).positions = List.replicate s.positions.length (1 / 2) ∧
    (pullClick side f idx d s).leftPowers = List.replicate s.leftPowers.length 0 ∧
    (pullClick side f idx d s).rightPowers = List.replicate s.rightPowers.length 0 := by
  have hpo := applyPull_powersOnly side f idx s
  have hrt : (applyPull side f idx s).running = false := by rw [hpo.2.2.2.1, hr]
  have e : pullClick side f idx d s = startRound d s := by
    simp only [pullClick, hrt, Bool.not_false, if_true]
    exact startRound_powersOnly d s _ hpo hr
  obtain ⟨h1, h2, h3, -⟩ := startRound_idle d s hr
  rw [e]
  exact ⟨rfl, h1, h2, h3⟩

/-- C11 at `sampleEnded`: a click on the left main button (force 1.6 on every rope)
after a finished round starts the next round with the three ropes at 0.5 and
no power on any of them, exactly as `startRound()` alone does. -/
theorem C11_starting_pull_discarded_witness :
    sampleEnded.running = false ∧
    (applyPull .left (16 / 10) none sampleEnded).leftPowers = [16 / 10, 16 / 10, 16 / 10] ∧
    pullClick .left (16 / 10) none 30 sampleEnded = startRound 30 sampleEnded ∧
    (pullClick .left (16 / 10) none 30 sampleEnded).positions = [1 / 2, 1 / 2, 1 / 2] ∧
    (pullClick .left (16 / 10) none 30 sampleEnded).leftPowers = [0, 0, 0] ∧
    (pullClick .left (16 / 10) none 30 sampleEnded).rightPowers = [0, 0, 0] := by
  have h := C11_starting_pull_discarded .left (16 / 10) none 30 sampleEnded rfl
  refine ⟨rfl, ?_, h.1, h.2.1, h.2.2.1, h.2.2.2⟩
  norm_num [applyPull, globalStep, addPower, isSecured, securedCount, sampleEnded, List.range,
    List.range.loop]

end TugOfWar
